import Mathlib

/-!
Verification development for the Game X character builder
(`public/character-schema.js`, `public/builder-class.js`,
`public/builder-common.js`).

JavaScript strings are modelled as `List Char` (one entry per code unit; all
data of interest lies in the basic plane, where code units and characters
coincide).  JavaScript numbers reaching the integer sanitizers are modelled as
`Int`; a field that may be absent, `null`, or fail `Number.parseInt` is
modelled as `Option Int`, with `none` standing for every input whose parse
yields `NaN` (the code then falls back to the `min` bound).
-/

/-- JS strings in the model: a list of characters. -/
abbrev Str := List Char

/-- Converts a Lean string literal into the model's string type. -/
def js (s : String) : Str := s.toList

/-- Character class of the JavaScript `\s` regex class and of `String.trim`:
space, tab, LF, VT, FF, CR, and the Unicode space and BOM characters. -/
def isJsWs (c : Char) : Bool :=
  c.toNat = 32 || c.toNat = 9 || c.toNat = 10 || c.toNat = 13 ||
  c.toNat = 11 || c.toNat = 12 ||
  c.toNat = 0xA0 || c.toNat = 0x1680 ||
  (0x2000 ≤ c.toNat && c.toNat ≤ 0x200A) ||
  c.toNat = 0x2028 || c.toNat = 0x2029 || c.toNat = 0x202F ||
  c.toNat = 0x205F || c.toNat = 0x3000 || c.toNat = 0xFEFF

/-- Characters removed by `stripControlChars` in `character-schema.js`:
C0/C1 controls except tab (9), LF (10) and CR (13), plus DEL..APC. -/
def isStrippedControl (c : Char) : Bool :=
  (c.toNat ≤ 8) || c.toNat = 11 || c.toNat = 12 ||
  (14 ≤ c.toNat && c.toNat ≤ 31) || (0x7F ≤ c.toNat && c.toNat ≤ 0x9F)

/-- `stripControlChars` (character-schema.js): drop the stripped control
characters, keeping everything else. -/
def stripControlChars (s : Str) : Str :=
  s.filter (fun c => !isStrippedControl c)

/-- Replaces every maximal run of whitespace by a single space, tracking in
`prevWs` whether the previous character belonged to a run (the model of the
regex replace `\s+` → a single space in `collapseSpaces`). -/
def squeezeWsAux (prevWs : Bool) : Str → Str
  | [] => []
  | c :: rest =>
    if isJsWs c then
      if prevWs then squeezeWsAux true rest
      else ' ' :: squeezeWsAux true rest
    else c :: squeezeWsAux false rest

/-- Whitespace-run squeezing with no run in progress initially. -/
def squeezeWs (s : Str) : Str := squeezeWsAux false s

/-- JS `String.prototype.trim`: drop leading and trailing whitespace. -/
def trimJs (s : Str) : Str :=
  ((s.dropWhile isJsWs).reverse.dropWhile isJsWs).reverse

/-- `collapseSpaces` (character-schema.js): `replace(/\s+/g, " ").trim()`. -/
def collapseSpaces (s : Str) : Str :=
  trimJs (squeezeWs s)

/-- `sanitizeText` (character-schema.js): strip control characters, collapse
or trim, then truncate to `maxLen` code units. -/
def sanitizeText (value : Str) (maxLen : Nat) (collapse : Bool) : Str :=
  let s := stripControlChars value
  let s := if collapse then collapseSpaces s else trimJs s
  s.take maxLen

/-- `sanitizeCharName` (character-schema.js). -/
def sanitizeCharName (value : Str) : Str :=
  sanitizeText value 64 true

/-- Allowed character set of `sanitizeStoragePath`. -/
def storagePathCharOk (c : Char) : Bool :=
  (97 ≤ c.toNat && c.toNat ≤ 122) || (65 ≤ c.toNat && c.toNat ≤ 90) ||
  (48 ≤ c.toNat && c.toNat ≤ 57) ||
  c.toNat = 95 || c.toNat = 45 || c.toNat = 46 || c.toNat = 47

/-- `sanitizeStoragePath` (character-schema.js): sanitize, then reject any
nonempty result containing a character outside the conservative charset. -/
def sanitizeStoragePath (value : Str) : Str :=
  let s := sanitizeText value 256 true
  if s = [] then []
  else if s.all storagePathCharOk then s else []

/-- Clamp of an integer to `[lo, hi]`, the arithmetic core of `toInt`. -/
def toIntClamp (n lo hi : Int) : Int := max lo (min hi n)

/-- `toInt` (character-schema.js) on a parsed input: `none` models every
value whose `Number.parseInt` is `NaN` (the function then returns `min`). -/
def toInt (v : Option Int) (lo hi : Int) : Int :=
  match v with
  | none => lo
  | some n => toIntClamp n lo hi

/-- `clampLevel` on an integer input. -/
def clampLevelInt (n : Int) : Int := toIntClamp n 1 12

/-- `clampLevel` (character-schema.js): `toInt(level, min 1, max 12)`. -/
def clampLevel (v : Option Int) : Int := toInt v 1 12

/-- The six attribute keys of `ATTR_KEYS`. -/
inductive Attr where
  | strength
  | agility
  | intellect
  | willpower
  | attunement
  | heart
deriving DecidableEq, Repr

/-- Listing of all attribute keys in the order of `ATTR_KEYS`. -/
def attrList : List Attr :=
  [.strength, .agility, .intellect, .willpower, .attunement, .heart]

/-- The stored string form of an attribute key. -/
def attrName : Attr → Str
  | .strength => js "strength"
  | .agility => js "agility"
  | .intellect => js "intellect"
  | .willpower => js "willpower"
  | .attunement => js "attunement"
  | .heart => js "heart"

/-- `coerceAttrKey` (character-schema.js): trim, lowercase, and keep the
value only when it is one of the six attribute keys.  The source returns the
key string or `""`; the model returns `some key` or `none`, with
`attrKeyStr` recovering the stored string. -/
def coerceAttrKey (s : Str) : Option Attr :=
  let t := (trimJs s).map Char.toLower
  if t = js "strength" then some .strength
  else if t = js "agility" then some .agility
  else if t = js "intellect" then some .intellect
  else if t = js "willpower" then some .willpower
  else if t = js "attunement" then some .attunement
  else if t = js "heart" then some .heart
  else none

/-- String form of a coerced attribute key (`""` for a failed coercion). -/
def attrKeyStr : Option Attr → Str
  | some a => attrName a
  | none => []

/-- Attribute maps: one field per key of `ATTR_KEYS`. -/
structure AttrMap (α : Type) where
  strength : α
  agility : α
  intellect : α
  willpower : α
  attunement : α
  heart : α
deriving DecidableEq, Repr

/-- Field lookup in an attribute map. -/
def AttrMap.get {α : Type} (m : AttrMap α) : Attr → α
  | .strength => m.strength
  | .agility => m.agility
  | .intellect => m.intellect
  | .willpower => m.willpower
  | .attunement => m.attunement
  | .heart => m.heart

/-- Builds an attribute map from a function on keys. -/
def AttrMap.mk6 {α : Type} (f : Attr → α) : AttrMap α :=
  ⟨f .strength, f .agility, f .intellect, f .willpower, f .attunement, f .heart⟩

/-- `normalizeAttributes` (character-schema.js): each of the six keys is run
through `toInt` with bounds `[0, 99]` (the defaults used at every call site
that omits them). -/
def normalizeAttributes (src : AttrMap (Option Int)) : AttrMap Int :=
  AttrMap.mk6 (fun k => toInt (src.get k) 0 99)

/-- `getAttributePointsToSpend` (character-schema.js). -/
def getAttributePointsToSpend (level : Int) : Int :=
  12 + 3 * (clampLevelInt level - 1)

/-- `getAttributeFinalCap` (character-schema.js).  `Math.floor(L / 2)` on a
clamped (hence positive) level coincides with integer division. -/
def getAttributeFinalCap (level : Int) : Int :=
  4 + clampLevelInt level / 2

/-- `getAttributeEffectiveCap` (character-schema.js). -/
def getAttributeEffectiveCap (level : Int) (attrKey primaryAttrKey : Str) : Int :=
  let L := clampLevelInt level
  let cap := getAttributeFinalCap L
  match coerceAttrKey attrKey with
  | none => cap
  | some a =>
    match coerceAttrKey primaryAttrKey with
    | none => cap
    | some p => if L ≤ 2 ∧ a ≠ p then max 0 (cap - 1) else cap

/-- Clamping a level already inside `[1, 12]` is the identity. -/
theorem clampLevelInt_eq_self {L : Int} (h1 : 1 ≤ L) (h2 : L ≤ 12) :
    clampLevelInt L = L := by
  unfold clampLevelInt toIntClamp
  omega

/-- The clamped level always lies in `[1, 12]`. -/
theorem clampLevelInt_bounds (n : Int) :
    1 ≤ clampLevelInt n ∧ clampLevelInt n ≤ 12 := by
  unfold clampLevelInt toIntClamp
  omega

/-- The final cap is always between 4 and 10. -/
theorem getAttributeFinalCap_bounds (level : Int) :
    4 ≤ getAttributeFinalCap level ∧ getAttributeFinalCap level ≤ 10 := by
  unfold getAttributeFinalCap clampLevelInt toIntClamp
  omega

/-- Coercing the canonical name of an attribute key recovers the key. -/
theorem coerceAttrKey_attrName (k : Attr) : coerceAttrKey (attrName k) = some k := by
  cases k <;> decide

/-- C1: for every level L in [1,12], `getAttributePointsToSpend(L)` is
`12 + 3*(L-1)` and `getAttributeFinalCap(L)` is `4 + floor(L/2)`. -/
theorem c1_points_budget_and_final_cap (L : Int) (h1 : 1 ≤ L) (h2 : L ≤ 12) :
    getAttributePointsToSpend L = 12 + 3 * (L - 1) ∧
    getAttributeFinalCap L = 4 + L / 2 := by
  unfold getAttributePointsToSpend getAttributeFinalCap clampLevelInt toIntClamp
  omega

/-- Witness for C1 at level 4: the points budget is 21 and the cap is 6. -/
theorem c1_points_budget_and_final_cap_witness :
    getAttributePointsToSpend 4 = 21 ∧ getAttributeFinalCap 4 = 6 := by
  have h := c1_points_budget_and_final_cap 4 (by decide) (by decide)
  exact ⟨h.1.trans (by decide), h.2.trans (by decide)⟩

/-- C2: for levels in [1,12] and attribute keys k, p, the effective cap is
`finalCap - 1` exactly when `L ≤ 2` and `k` is not the primary attribute,
and `finalCap` otherwise. -/
theorem c2_effective_cap_rule (L : Int) (h1 : 1 ≤ L) (h2 : L ≤ 12) (k p : Attr) :
    getAttributeEffectiveCap L (attrName k) (attrName p) =
      if L ≤ 2 ∧ k ≠ p then getAttributeFinalCap L - 1
      else getAttributeFinalCap L := by
  have hclamp := clampLevelInt_eq_self h1 h2
  have hcap := getAttributeFinalCap_bounds L
  have hcapc : getAttributeFinalCap (clampLevelInt L) = getAttributeFinalCap L := by
    unfold getAttributeFinalCap
    rw [show clampLevelInt (clampLevelInt L) = clampLevelInt L by
      unfold clampLevelInt toIntClamp; omega]
  unfold getAttributeEffectiveCap
  rw [coerceAttrKey_attrName, coerceAttrKey_attrName]
  simp only [hclamp, hcapc]
  by_cases hkp : k = p
  · subst hkp
    simp
  · simp only [hkp, ne_eq, not_false_eq_true, and_true]
    by_cases hL : L ≤ 2
    · simp only [hL, if_true]
      omega
    · simp [hL]

/-- Witness for C2 at level 2 with primary agility: the agility cap is 5 and
the strength cap is 4. -/
theorem c2_effective_cap_rule_witness :
    getAttributeEffectiveCap 2 (attrName .agility) (attrName .agility) = 5 ∧
    getAttributeEffectiveCap 2 (attrName .strength) (attrName .agility) = 4 := by
  constructor
  · exact (c2_effective_cap_rule 2 (by decide) (by decide) .agility .agility).trans (by decide)
  · exact (c2_effective_cap_rule 2 (by decide) (by decide) .strength .agility).trans (by decide)

/-- `sanitizeStringArray` (character-schema.js): sanitize each item with
collapse, skip empties, and stop after pushing `maxItems` items (the source
pushes and then breaks once the output length reaches `maxItems`). -/
def sanitizeStringArray (maxItems maxLen : Nat) : List Str → List Str
  | [] => []
  | item :: rest =>
    let s := sanitizeText item maxLen true
    if s = [] then sanitizeStringArray maxItems maxLen rest
    else if maxItems ≤ 1 then [s]
    else s :: sanitizeStringArray (maxItems - 1) maxLen rest

/-- Entries of the sheet's repeatable abilities list (name/text pairs). -/
structure Ability where
  name : Str
  text : Str
deriving DecidableEq, Repr

/-- `sanitizeRepeatableAbilities` (character-schema.js), with the hardcoded
item limit of 200 made a parameter of the recursion. -/
def sanitizeRepeatableAbilities (maxItems : Nat) : List Ability → List Ability
  | [] => []
  | raw :: rest =>
    let name := sanitizeText raw.name 120 true
    let text := sanitizeText raw.text 4000 false
    if name = [] ∧ text = [] then sanitizeRepeatableAbilities maxItems rest
    else if maxItems ≤ 1 then [⟨name, text⟩]
    else ⟨name, text⟩ :: sanitizeRepeatableAbilities (maxItems - 1) rest

/-- Input shape of `normalizeCharacterDoc`: the fields the function reads.
`Option Int` fields use `none` for an absent/null value (the code then falls
back to its default); `Option` on `sheetAbilities` models presence of the
`abilities` key under `builder.sheet.repeatables`. -/
structure RawDoc where
  schemaVersion : Option Int
  ownerUid : Str
  name : Str
  portraitPath : Str
  level : Option Int
  classKey : Str
  primaryAttribute : Str
  attributes : AttrMap (Option Int)
  selectedClassFeatureOptions : List Str
  selectedFeats : List Str
  autoAbilityNames : List Str
  visitedSteps : List Str
  sheetAbilities : Option (List Ability)
deriving Repr

/-- Output shape of `normalizeCharacterDoc` (the normalized fields). -/
structure NormDoc where
  schemaVersion : Int
  ownerUid : Str
  name : Str
  portraitPath : Str
  level : Int
  classKey : Str
  primaryAttribute : Str
  attributes : AttrMap Int
  selectedClassFeatureOptions : List Str
  selectedFeats : List Str
  autoAbilityNames : List Str
  visitedSteps : List Str
  sheetAbilities : Option (List Ability)
deriving DecidableEq, Repr

/-- `normalizeCharacterDoc` (character-schema.js): level is clamped, the
primary attribute coerced, and each attribute re-clamped between the primary
minimum and the effective cap computed from the normalized level and primary
attribute; strings and string arrays run through their sanitizers. -/
def normalizeCharacterDoc (src : RawDoc) : NormDoc :=
  let level := clampLevelInt (src.level.getD 1)
  let primary := coerceAttrKey src.primaryAttribute
  let primaryStr := attrKeyStr primary
  let attrs0 := normalizeAttributes src.attributes
  let attrs := AttrMap.mk6 (fun k =>
    let cap := getAttributeEffectiveCap level (attrName k) primaryStr
    let lo : Int := if primaryStr ≠ [] ∧ attrName k = primaryStr then 1 else 0
    toIntClamp (attrs0.get k) lo cap)
  { schemaVersion := toIntClamp (src.schemaVersion.getD 3) 0 9999
    ownerUid := sanitizeText src.ownerUid 128 true
    name := sanitizeCharName src.name
    portraitPath := sanitizeStoragePath src.portraitPath
    level := level
    classKey := sanitizeText src.classKey 64 true
    primaryAttribute := primaryStr
    attributes := attrs
    selectedClassFeatureOptions := sanitizeStringArray 200 160 src.selectedClassFeatureOptions
    selectedFeats := sanitizeStringArray 200 160 src.selectedFeats
    autoAbilityNames := sanitizeStringArray 500 200 src.autoAbilityNames
    visitedSteps := sanitizeStringArray 50 64 src.visitedSteps
    sheetAbilities := src.sheetAbilities.map (sanitizeRepeatableAbilities 200) }

/-- Sum of the six attribute values. -/
def sumAttrMap (m : AttrMap Int) : Int :=
  m.strength + m.agility + m.intellect + m.willpower + m.attunement + m.heart

/-- Projecting a map built from a function evaluates that function. -/
theorem AttrMap.get_mk6 {α : Type} (f : Attr → α) (k : Attr) :
    (AttrMap.mk6 f).get k = f k := by
  cases k <;> rfl

/-- The attribute-name strings are pairwise distinct. -/
theorem attrName_inj {k p : Attr} (h : attrName k = attrName p) : k = p := by
  revert h
  cases k <;> cases p <;> decide

/-- The effective cap is one of the final cap or the reduced-by-one cap. -/
theorem getAttributeEffectiveCap_cases (level : Int) (a p : Str) :
    getAttributeEffectiveCap level a p = getAttributeFinalCap (clampLevelInt level) ∨
    getAttributeEffectiveCap level a p =
      max 0 (getAttributeFinalCap (clampLevelInt level) - 1) := by
  unfold getAttributeEffectiveCap
  rcases hA : coerceAttrKey a with _ | a1
  · left; rfl
  · rcases hP : coerceAttrKey p with _ | p1
    · left; rfl
    · by_cases hc : clampLevelInt level ≤ 2 ∧ a1 ≠ p1
      · right; simp [hc]
      · left; simp [hc]

/-- Clamping the level twice equals clamping once. -/
theorem clampLevelInt_idem (n : Int) : clampLevelInt (clampLevelInt n) = clampLevelInt n := by
  unfold clampLevelInt toIntClamp
  omega

/-- The final cap only depends on the clamped level. -/
theorem getAttributeFinalCap_clamp (level : Int) :
    getAttributeFinalCap (clampLevelInt level) = getAttributeFinalCap level := by
  unfold getAttributeFinalCap
  rw [clampLevelInt_idem]

/-- The effective cap is never negative. -/
theorem getAttributeEffectiveCap_nonneg (level : Int) (a p : Str) :
    0 ≤ getAttributeEffectiveCap level a p := by
  have hb := getAttributeFinalCap_bounds (clampLevelInt level)
  rcases getAttributeEffectiveCap_cases level a p with h | h <;> rw [h] <;> omega

/-- The effective cap never exceeds the final cap. -/
theorem getAttributeEffectiveCap_le_finalCap (level : Int) (a p : Str) :
    getAttributeEffectiveCap level a p ≤ getAttributeFinalCap level := by
  have hb := getAttributeFinalCap_bounds (clampLevelInt level)
  rw [← getAttributeFinalCap_clamp level]
  rcases getAttributeEffectiveCap_cases level a p with h | h <;> rw [h] <;> omega

/-- When the attribute equals the primary, the effective cap is the final cap. -/
theorem getAttributeEffectiveCap_self (level : Int) (k : Attr) :
    getAttributeEffectiveCap level (attrName k) (attrName k) =
      getAttributeFinalCap (clampLevelInt level) := by
  unfold getAttributeEffectiveCap
  rw [coerceAttrKey_attrName]
  simp

/-- Core bound: every normalized attribute is at most the effective cap
computed from the normalized level and primary attribute. -/
theorem normalized_attr_le_effective_cap (raw : RawDoc) (k : Attr) :
    (normalizeCharacterDoc raw).attributes.get k ≤
      getAttributeEffectiveCap (normalizeCharacterDoc raw).level (attrName k)
        (normalizeCharacterDoc raw).primaryAttribute := by
  show (AttrMap.mk6 _).get k ≤ _
  rw [AttrMap.get_mk6]
  set level := clampLevelInt (raw.level.getD 1) with hlevel
  set primaryStr := attrKeyStr (coerceAttrKey raw.primaryAttribute) with hps
  set cap := getAttributeEffectiveCap level (attrName k) primaryStr with hcap
  have hlo : (if primaryStr ≠ [] ∧ attrName k = primaryStr then (1 : Int) else 0) ≤ cap := by
    by_cases hc : primaryStr ≠ [] ∧ attrName k = primaryStr
    · rw [if_pos hc]
      obtain ⟨hne, heq⟩ := hc
      rcases hco : coerceAttrKey raw.primaryAttribute with _ | p
      · rw [hps, hco] at hne
        exact absurd rfl hne
      · have hpk : primaryStr = attrName k := by
          have hkp : k = p := by
            apply attrName_inj
            rw [heq, hps, hco]
            rfl
          rw [hps, hco, hkp]
          rfl
        have hb := getAttributeFinalCap_bounds (clampLevelInt level)
        rw [hcap, hpk, getAttributeEffectiveCap_self]
        omega
    · rw [if_neg hc]
      exact getAttributeEffectiveCap_nonneg level (attrName k) primaryStr
  show toIntClamp _ _ cap ≤ cap
  unfold toIntClamp
  omega

/-- C3: after `normalizeCharacterDoc`, every one of the six attribute values
is at most the effective cap computed from the normalized level and primary
attribute. -/
theorem c3_normalized_attributes_within_caps (raw : RawDoc) (k : Attr) :
    (normalizeCharacterDoc raw).attributes.get k ≤
      getAttributeEffectiveCap (normalizeCharacterDoc raw).level (attrName k)
        (normalizeCharacterDoc raw).primaryAttribute :=
  normalized_attr_le_effective_cap raw k

/-- Input on which the points budget is exceeded after normalization: level 1
(budget 12), no primary attribute, all six attributes at the cap 4. -/
def c4CounterRaw : RawDoc :=
  { schemaVersion := some 3, ownerUid := [], name := [], portraitPath := [],
    level := some 1, classKey := [], primaryAttribute := [],
    attributes := ⟨some 4, some 4, some 4, some 4, some 4, some 4⟩,
    selectedClassFeatureOptions := [], selectedFeats := [], autoAbilityNames := [],
    visitedSteps := [], sheetAbilities := none }

/-- C4 counterexample: `normalizeCharacterDoc` does not enforce the
level-derived points budget.  At level 1 with no primary attribute and all
six attributes submitted as 4, every attribute passes the per-attribute cap,
so the base total is 24 while `getAttributePointsToSpend(1) = 12`. -/
theorem c4_counterexample :
    ¬ (sumAttrMap (normalizeCharacterDoc c4CounterRaw).attributes -
        (if (normalizeCharacterDoc c4CounterRaw).primaryAttribute ≠ [] then 1 else 0) ≤
      getAttributePointsToSpend (normalizeCharacterDoc c4CounterRaw).level) := by
  decide

/-- C4 (amended): normalization clamps each attribute to its effective cap,
so the base (non-bonus) attribute total is bounded by six times the final cap
for the normalized level, minus the primary bonus when a primary attribute is
set; the `getAttributePointsToSpend` budget itself is not enforced by
`normalizeCharacterDoc` (overspending is only a save-time warning in the
attributes step UI). -/
theorem c4_amended_base_sum_bounded_by_caps (raw : RawDoc) :
    sumAttrMap (normalizeCharacterDoc raw).attributes -
      (if (normalizeCharacterDoc raw).primaryAttribute ≠ [] then 1 else 0) ≤
    6 * getAttributeFinalCap (normalizeCharacterDoc raw).level -
      (if (normalizeCharacterDoc raw).primaryAttribute ≠ [] then 1 else 0) := by
  have h : ∀ k : Attr, (normalizeCharacterDoc raw).attributes.get k ≤
      getAttributeFinalCap (normalizeCharacterDoc raw).level := fun k =>
    le_trans (normalized_attr_le_effective_cap raw k)
      (getAttributeEffectiveCap_le_finalCap _ _ _)
  have h1 := h .strength
  have h2 := h .agility
  have h3 := h .intellect
  have h4 := h .willpower
  have h5 := h .attunement
  have h6 := h .heart
  simp only [AttrMap.get] at h1 h2 h3 h4 h5 h6
  unfold sumAttrMap
  split <;> omega

/-- Reads a normalized document back as input to `normalizeCharacterDoc`
(in the source both are plain objects of the same shape; in the model the
numeric fields are wrapped back into their present/parsed form). -/
def normDocToRaw (d : NormDoc) : RawDoc :=
  { schemaVersion := some d.schemaVersion, ownerUid := d.ownerUid, name := d.name,
    portraitPath := d.portraitPath, level := some d.level, classKey := d.classKey,
    primaryAttribute := d.primaryAttribute,
    attributes := AttrMap.mk6 (fun k => some (d.attributes.get k)),
    selectedClassFeatureOptions := d.selectedClassFeatureOptions,
    selectedFeats := d.selectedFeats, autoAbilityNames := d.autoAbilityNames,
    visitedSteps := d.visitedSteps, sheetAbilities := d.sheetAbilities }

/-- Input on which normalization is not idempotent: a 65-character name whose
sanitized form is truncated to 64 characters ending in a space, which the
second normalization trims again. -/
def c5CounterRaw : RawDoc :=
  { schemaVersion := some 3, ownerUid := [],
    name := js "aaaaaaaaaaaaaaaaaaaaaaaaaaaaaaaaaaaaaaaaaaaaaaaaaaaaaaaaaaaaaaa b",
    portraitPath := [],
    level := some 1, classKey := [], primaryAttribute := [],
    attributes := ⟨none, none, none, none, none, none⟩,
    selectedClassFeatureOptions := [], selectedFeats := [], autoAbilityNames := [],
    visitedSteps := [], sheetAbilities := none }

/-- C5 counterexample: normalizing an already-normalized document changes
`builder.name` when the first pass truncated it at the 64-character cap
leaving a trailing space (63 a's followed by " b" normalizes to 63 a's plus a
trailing space, then to 63 a's). -/
theorem c5_counterexample :
    (normalizeCharacterDoc (normDocToRaw (normalizeCharacterDoc c5CounterRaw))).name ≠
      (normalizeCharacterDoc c5CounterRaw).name := by
  decide

/-- Holds when the string is empty or starts with a non-whitespace character. -/
def headNotWs : Str → Bool
  | [] => true
  | c :: _ => !isJsWs c

/-- Holds when the string is empty or ends with a non-whitespace character. -/
def lastNotWs (l : Str) : Bool := headNotWs l.reverse

/-- Holds when no two adjacent characters are both whitespace. -/
def noAdjWs : Str → Bool
  | [] => true
  | c :: rest => (!isJsWs c || headNotWs rest) && noAdjWs rest

/-- Holds when every whitespace character of the string is a plain space. -/
def wsOnlySpace (l : Str) : Bool := l.all (fun c => !isJsWs c || c = ' ')

/-- Characters of the squeezed string come from the input or are spaces. -/
theorem mem_squeezeWsAux {c : Char} :
    ∀ (l : Str) (b : Bool), c ∈ squeezeWsAux b l → c = ' ' ∨ c ∈ l := by
  intro l
  induction l with
  | nil => intro b h; exact absurd h (by simp [squeezeWsAux])
  | cons d rest ih =>
    intro b h
    unfold squeezeWsAux at h
    by_cases hd : isJsWs d
    · simp only [hd, if_true] at h
      cases b with
      | true =>
        rcases ih true h with h1 | h1
        · exact Or.inl h1
        · exact Or.inr (List.mem_cons_of_mem d h1)
      | false =>
        rcases List.mem_cons.mp h with h1 | h1
        · exact Or.inl h1
        · rcases ih true h1 with h2 | h2
          · exact Or.inl h2
          · exact Or.inr (List.mem_cons_of_mem d h2)
    · simp only [hd, if_false] at h
      rcases List.mem_cons.mp h with h1 | h1
      · exact Or.inr (h1 ▸ List.mem_cons_self d rest)
      · rcases ih false h1 with h2 | h2
        · exact Or.inl h2
        · exact Or.inr (List.mem_cons_of_mem d h2)

/-- Squeezing with a run in progress yields a non-whitespace head. -/
theorem headNotWs_squeezeWsAux_true :
    ∀ l : Str, headNotWs (squeezeWsAux true l) = true := by
  intro l
  induction l with
  | nil => rfl
  | cons d rest ih =>
    unfold squeezeWsAux
    by_cases hd : isJsWs d
    · simp only [hd, if_true]
      exact ih
    · simp only [hd, if_false]
      simp [headNotWs, hd]

/-- Every whitespace character of a squeezed string is a plain space. -/
theorem wsOnlySpace_squeezeWsAux :
    ∀ (l : Str) (b : Bool), wsOnlySpace (squeezeWsAux b l) = true := by
  intro l
  induction l with
  | nil => intro b; rfl
  | cons d rest ih =>
    intro b
    unfold squeezeWsAux
    by_cases hd : isJsWs d
    · simp only [hd, if_true]
      cases b with
      | true => exact ih true
      | false =>
        simp only [wsOnlySpace, List.all_cons]
        refine (Bool.and_eq_true _ _).mpr ⟨by decide, ?_⟩
        exact ih true
    · simp only [hd, if_false]
      simp only [wsOnlySpace, List.all_cons]
      refine (Bool.and_eq_true _ _).mpr ⟨by simp [hd], ?_⟩
      exact ih false

/-- A squeezed string has no two adjacent whitespace characters. -/
theorem noAdjWs_squeezeWsAux :
    ∀ (l : Str) (b : Bool), noAdjWs (squeezeWsAux b l) = true := by
  intro l
  induction l with
  | nil => intro b; rfl
  | cons d rest ih =>
    intro b
    unfold squeezeWsAux
    by_cases hd : isJsWs d
    · simp only [hd, if_true]
      cases b with
      | true => exact ih true
      | false =>
        simp only [noAdjWs]
        refine (Bool.and_eq_true _ _).mpr ⟨?_, ih true⟩
        simp [headNotWs_squeezeWsAux_true rest]
    · simp only [hd, if_false]
      simp only [noAdjWs]
      refine (Bool.and_eq_true _ _).mpr ⟨?_, ih false⟩
      simp [hd]

/-- Squeezing fixes any string whose whitespace is single spaces; with a run
in progress the same holds when the head is not whitespace. -/
theorem squeezeWsAux_fix :
    ∀ l : Str, wsOnlySpace l = true → noAdjWs l = true →
      squeezeWsAux false l = l ∧ (headNotWs l = true → squeezeWsAux true l = l) := by
  intro l
  induction l with
  | nil => intro _ _; exact ⟨rfl, fun _ => rfl⟩
  | cons d rest ih =>
    intro hws hadj
    simp only [wsOnlySpace, List.all_cons, Bool.and_eq_true] at hws
    simp only [noAdjWs, Bool.and_eq_true] at hadj
    have ihr := ih hws.2 hadj.2
    by_cases hd : isJsWs d
    · have hdsp : d = ' ' := by
        rcases Bool.or_eq_true_iff.mp hws.1 with h | h
        · rw [hd] at h; exact absurd h (by decide)
        · exact decide_eq_true_eq.mp h
      have hhr : headNotWs rest = true := by
        rcases Bool.or_eq_true_iff.mp hadj.1 with h | h
        · rw [hd] at h; exact absurd h (by decide)
        · exact h
      constructor
      · unfold squeezeWsAux
        simp only [hd, if_true]
        rw [ihr.2 hhr, hdsp]
        simp
      · intro hh
        simp only [headNotWs, hd] at hh
        exact absurd hh (by decide)
    · constructor
      · unfold squeezeWsAux
        simp only [hd, if_false]
        rw [ihr.1]
        simp
      · intro _
        unfold squeezeWsAux
        simp only [hd, if_false]
        rw [ihr.1]
        simp

/-- After dropping leading whitespace the head is not whitespace. -/
theorem headNotWs_dropWhile (l : Str) : headNotWs (l.dropWhile isJsWs) = true := by
  induction l with
  | nil => rfl
  | cons c rest ih =>
    by_cases hc : isJsWs c
    · rw [List.dropWhile_cons_of_pos hc]
      exact ih
    · rw [List.dropWhile_cons_of_neg hc]
      simp [headNotWs, hc]

/-- A prefix of a string with non-whitespace head also has one. -/
theorem headNotWs_append_left {A B : Str} (h : headNotWs (A ++ B) = true) :
    headNotWs A = true := by
  cases A with
  | nil => rfl
  | cons c t => exact h

/-- The head indicator of an append with nonempty left part. -/
theorem headNotWs_append_of_ne_nil {A : Str} (B : Str) (h : A ≠ []) :
    headNotWs (A ++ B) = headNotWs A := by
  cases A with
  | nil => exact absurd rfl h
  | cons c t => rfl

/-- Decomposition of a string into its trailing-trim and the dropped tail. -/
theorem trimTail_decomposition (X : Str) :
    X = (X.reverse.dropWhile isJsWs).reverse ++ (X.reverse.takeWhile isJsWs).reverse := by
  have h := List.takeWhile_append_dropWhile isJsWs X.reverse
  calc X = X.reverse.reverse := (List.reverse_reverse X).symm
  _ = (X.reverse.takeWhile isJsWs ++ X.reverse.dropWhile isJsWs).reverse := by rw [h]
  _ = _ := by rw [List.reverse_append]

/-- The trimmed string starts with a non-whitespace character. -/
theorem headNotWs_trimJs (l : Str) : headNotWs (trimJs l) = true := by
  unfold trimJs
  set X := l.dropWhile isJsWs with hX
  have hhead : headNotWs X = true := headNotWs_dropWhile l
  have hdec := trimTail_decomposition X
  rw [hdec] at hhead
  exact headNotWs_append_left hhead

/-- The trimmed string ends with a non-whitespace character. -/
theorem lastNotWs_trimJs (l : Str) : lastNotWs (trimJs l) = true := by
  unfold trimJs lastNotWs
  rw [List.reverse_reverse]
  exact headNotWs_dropWhile _

/-- Dropping leading whitespace fixes strings with non-whitespace head. -/
theorem dropWhile_of_headNotWs {l : Str} (h : headNotWs l = true) :
    l.dropWhile isJsWs = l := by
  cases l with
  | nil => rfl
  | cons c t =>
    simp only [headNotWs, Bool.not_eq_true'] at h
    rw [List.dropWhile_cons_of_neg (by simp [h])]

/-- Trimming fixes strings with non-whitespace head and last characters. -/
theorem trimJs_fix {l : Str} (h1 : headNotWs l = true) (h2 : lastNotWs l = true) :
    trimJs l = l := by
  unfold trimJs
  rw [dropWhile_of_headNotWs h1, dropWhile_of_headNotWs h2, List.reverse_reverse]

/-- Characters of the trimmed string come from the input. -/
theorem mem_trimJs {c : Char} {l : Str} (h : c ∈ trimJs l) : c ∈ l := by
  unfold trimJs at h
  rw [List.mem_reverse] at h
  have h2 := (List.dropWhile_sublist isJsWs).mem h
  rw [List.mem_reverse] at h2
  exact (List.dropWhile_sublist isJsWs).mem h2

/-- The tail of a no-adjacent-whitespace string keeps the property. -/
theorem noAdjWs_tail {c : Char} {l : Str} (h : noAdjWs (c :: l) = true) :
    noAdjWs l = true := by
  simp only [noAdjWs, Bool.and_eq_true] at h
  exact h.2

/-- Dropping a prefix by `dropWhile` keeps the no-adjacent-whitespace shape. -/
theorem noAdjWs_dropWhile (p : Char → Bool) {l : Str} (h : noAdjWs l = true) :
    noAdjWs (l.dropWhile p) = true := by
  induction l with
  | nil => exact h
  | cons c rest ih =>
    by_cases hc : p c
    · rw [List.dropWhile_cons_of_pos hc]
      exact ih (noAdjWs_tail h)
    · rw [List.dropWhile_cons_of_neg hc]
      exact h

/-- Appending one character to a no-adjacent-whitespace string. -/
theorem noAdjWs_append_single (c : Char) :
    ∀ X : Str, noAdjWs (X ++ [c]) = (noAdjWs X && (lastNotWs X || !isJsWs c)) := by
  intro X
  induction X with
  | nil => simp [noAdjWs, headNotWs, lastNotWs]
  | cons a Y ih =>
    cases Y with
    | nil => simp [noAdjWs, headNotWs, lastNotWs, Bool.or_comm]
    | cons b Z =>
      have hlast : lastNotWs (a :: b :: Z) = lastNotWs (b :: Z) := by
        unfold lastNotWs
        rw [List.reverse_cons a (b :: Z)]
        exact headNotWs_append_of_ne_nil [a] (by simp)
      have hhead : headNotWs ((b :: Z) ++ [c]) = headNotWs (b :: Z) := by
        exact headNotWs_append_of_ne_nil [c] (by simp)
      calc noAdjWs ((a :: b :: Z) ++ [c])
          = ((!isJsWs a || headNotWs ((b :: Z) ++ [c])) && noAdjWs ((b :: Z) ++ [c])) := rfl
      _ = ((!isJsWs a || headNotWs (b :: Z)) &&
            (noAdjWs (b :: Z) && (lastNotWs (b :: Z) || !isJsWs c))) := by rw [hhead, ih]
      _ = (((!isJsWs a || headNotWs (b :: Z)) && noAdjWs (b :: Z)) &&
            (lastNotWs (b :: Z) || !isJsWs c)) := by rw [Bool.and_assoc]
      _ = (noAdjWs (a :: b :: Z) && (lastNotWs (a :: b :: Z) || !isJsWs c)) := by
            rw [hlast]; rfl

/-- Reversal preserves the no-adjacent-whitespace shape. -/
theorem noAdjWs_reverse : ∀ l : Str, noAdjWs l.reverse = noAdjWs l := by
  intro l
  induction l with
  | nil => rfl
  | cons a t ih =>
    rw [List.reverse_cons, noAdjWs_append_single]
    have hlast : lastNotWs t.reverse = headNotWs t := by
      unfold lastNotWs
      rw [List.reverse_reverse]
    rw [ih, hlast]
    show (noAdjWs t && (headNotWs t || !isJsWs a)) = noAdjWs (a :: t)
    show _ = ((!isJsWs a || headNotWs t) && noAdjWs t)
    rw [Bool.and_comm, Bool.or_comm]

/-- Trimming preserves the no-adjacent-whitespace shape. -/
theorem noAdjWs_trimJs {l : Str} (h : noAdjWs l = true) :
    noAdjWs (trimJs l) = true := by
  unfold trimJs
  rw [noAdjWs_reverse]
  apply noAdjWs_dropWhile
  rw [noAdjWs_reverse]
  exact noAdjWs_dropWhile isJsWs h

/-- Trimming preserves the whitespace-is-space property. -/
theorem wsOnlySpace_trimJs {l : Str} (h : wsOnlySpace l = true) :
    wsOnlySpace (trimJs l) = true := by
  unfold wsOnlySpace at h ⊢
  rw [List.all_eq_true] at h ⊢
  intro c hc
  exact h c (mem_trimJs hc)

/-- The collapsed string has its whitespace as single spaces. -/
theorem wsOnlySpace_collapse (s : Str) : wsOnlySpace (collapseSpaces s) = true :=
  wsOnlySpace_trimJs (wsOnlySpace_squeezeWsAux s false)

/-- The collapsed string has no two adjacent whitespace characters. -/
theorem noAdjWs_collapse (s : Str) : noAdjWs (collapseSpaces s) = true :=
  noAdjWs_trimJs (noAdjWs_squeezeWsAux s false)

/-- Collapsing whitespace is idempotent. -/
theorem collapseSpaces_idem (s : Str) :
    collapseSpaces (collapseSpaces s) = collapseSpaces s := by
  have hsq := squeezeWsAux_fix (collapseSpaces s) (wsOnlySpace_collapse s) (noAdjWs_collapse s)
  show trimJs (squeezeWs (collapseSpaces s)) = collapseSpaces s
  unfold squeezeWs
  rw [hsq.1]
  exact trimJs_fix (headNotWs_trimJs _) (lastNotWs_trimJs _)

/-- Characters of the stripped string come from the input. -/
theorem mem_stripControlChars {c : Char} {l : Str} (h : c ∈ stripControlChars l) :
    c ∈ l :=
  (List.filter_sublist l).mem h

/-- Characters of the stripped string are not stripped controls. -/
theorem not_stripped_of_mem_strip {c : Char} {l : Str} (h : c ∈ stripControlChars l) :
    isStrippedControl c = false := by
  have h2 := List.of_mem_filter h
  simpa using h2

/-- Stripping fixes a string with no stripped controls. -/
theorem stripControlChars_fix {l : Str}
    (h : ∀ c ∈ l, isStrippedControl c = false) : stripControlChars l = l := by
  apply List.filter_eq_self.mpr
  intro a ha
  simpa using h a ha

/-- Characters of the collapsed string come from the input or are spaces. -/
theorem mem_collapse {c : Char} {l : Str} (h : c ∈ collapseSpaces l) :
    c = ' ' ∨ c ∈ l :=
  mem_squeezeWsAux l false (mem_trimJs h)

/-- The output of collapse-after-strip contains no stripped controls, so a
second strip is the identity. -/
theorem strip_collapse_strip (s : Str) :
    stripControlChars (collapseSpaces (stripControlChars s)) =
      collapseSpaces (stripControlChars s) := by
  apply stripControlChars_fix
  intro c hc
  rcases mem_collapse hc with h | h
  · rw [h]; decide
  · exact not_stripped_of_mem_strip h

/-- When the collapsed-and-stripped text fits in `maxLen`, `sanitizeText`
with collapsing is idempotent at that input. -/
theorem sanitizeText_collapse_fix (s : Str) (maxLen : Nat)
    (h : (collapseSpaces (stripControlChars s)).length ≤ maxLen) :
    sanitizeText (sanitizeText s maxLen true) maxLen true =
      sanitizeText s maxLen true := by
  have h1 : sanitizeText s maxLen true = collapseSpaces (stripControlChars s) := by
    unfold sanitizeText
    simp only [if_true]
    exact List.take_of_length_le h
  rw [h1]
  unfold sanitizeText
  simp only [if_true]
  rw [strip_collapse_strip, collapseSpaces_idem]
  exact List.take_of_length_le (le_trans (le_of_eq (congrArg List.length (collapseSpaces_idem _).symm ▸ rfl)) h)

/-- Collapsing fixes a string with no whitespace at all. -/
theorem collapseSpaces_fix_of_no_ws {l : Str} (h : ∀ c ∈ l, isJsWs c = false) :
    collapseSpaces l = l := by
  have hws : wsOnlySpace l = true := by
    unfold wsOnlySpace
    rw [List.all_eq_true]
    intro c hc
    simp [h c hc]
  have hadj : noAdjWs l = true := by
    induction l with
    | nil => rfl
    | cons c rest ih =>
      simp only [noAdjWs, Bool.and_eq_true]
      refine ⟨?_, ih (fun d hd => h d (List.mem_cons_of_mem c hd)) ?_⟩
      · simp [h c (List.mem_cons_self c rest)]
      · unfold wsOnlySpace
        rw [List.all_eq_true]
        intro d hd
        simp [h d (List.mem_cons_of_mem c hd)]
  have hh : headNotWs l = true := by
    cases l with
    | nil => rfl
    | cons c rest => simp [headNotWs, h c (List.mem_cons_self c rest)]
  have hl : lastNotWs l = true := by
    unfold lastNotWs
    cases hrev : l.reverse with
    | nil => rfl
    | cons c rest =>
      have : c ∈ l := by
        rw [← List.mem_reverse, hrev]
        exact List.mem_cons_self c rest
      simp [headNotWs, h c this]
  have := squeezeWsAux_fix l hws hadj
  show trimJs (squeezeWs l) = l
  unfold squeezeWs
  rw [this.1]
  exact trimJs_fix hh hl

/-- Storage-path characters are never whitespace. -/
theorem not_ws_of_pathOk {c : Char} (h : storagePathCharOk c = true) :
    isJsWs c = false := by
  unfold storagePathCharOk at h
  simp only [Bool.or_eq_true, Bool.and_eq_true, decide_eq_true_eq] at h
  cases hh : isJsWs c
  · rfl
  · unfold isJsWs at hh
    simp only [Bool.or_eq_true, Bool.and_eq_true, decide_eq_true_eq] at hh
    omega

/-- Storage-path characters are never stripped controls. -/
theorem not_stripped_of_pathOk {c : Char} (h : storagePathCharOk c = true) :
    isStrippedControl c = false := by
  unfold storagePathCharOk at h
  simp only [Bool.or_eq_true, Bool.and_eq_true, decide_eq_true_eq] at h
  cases hh : isStrippedControl c
  · rfl
  · unfold isStrippedControl at hh
    simp only [Bool.or_eq_true, Bool.and_eq_true, decide_eq_true_eq] at hh
    omega

/-- A short string over the storage-path charset is fixed by the sanitizer. -/
theorem sanitizeStoragePath_of_clean {s : Str}
    (hchars : ∀ c ∈ s, storagePathCharOk c = true) (hlen : s.length ≤ 256) :
    sanitizeStoragePath s = s := by
  have hfix : sanitizeText s 256 true = s := by
    unfold sanitizeText
    simp only [if_true]
    rw [stripControlChars_fix (fun c hc => not_stripped_of_pathOk (hchars c hc))]
    rw [collapseSpaces_fix_of_no_ws (fun c hc => not_ws_of_pathOk (hchars c hc))]
    exact List.take_of_length_le hlen
  unfold sanitizeStoragePath
  rw [hfix]
  by_cases h0 : s = []
  · rw [if_pos h0, h0]
  · rw [if_neg h0, if_pos ?_]
    rw [List.all_eq_true]
    intro c hc
    simpa using hchars c hc

/-- The storage-path sanitizer is idempotent. -/
theorem sanitizeStoragePath_idem (v : Str) :
    sanitizeStoragePath (sanitizeStoragePath v) = sanitizeStoragePath v := by
  have hout : sanitizeStoragePath v = [] ∨
      ((∀ c ∈ sanitizeStoragePath v, storagePathCharOk c = true) ∧
        (sanitizeStoragePath v).length ≤ 256) := by
    unfold sanitizeStoragePath
    by_cases h0 : sanitizeText v 256 true = []
    · left
      rw [if_pos h0]
    · by_cases h1 : (sanitizeText v 256 true).all storagePathCharOk = true
      · right
        rw [if_neg h0, if_pos h1]
        constructor
        · intro c hc
          exact List.all_eq_true.mp h1 c hc
        · show (sanitizeText v 256 true).length ≤ 256
          unfold sanitizeText
          simp only [if_true]
          exact List.length_take_le _ _
      · left
        rw [if_neg h0, if_neg h1]
  rcases hout with h | ⟨hchars, hlen⟩
  · rw [h]
    rfl
  · exact sanitizeStoragePath_of_clean hchars hlen

/-- The sanitized string array never exceeds the item limit. -/
theorem sanitizeStringArray_length_le (maxLen : Nat) :
    ∀ (l : List Str) (maxItems : Nat), 1 ≤ maxItems →
      (sanitizeStringArray maxItems maxLen l).length ≤ maxItems := by
  intro l
  induction l with
  | nil =>
    intro m hm
    simp [sanitizeStringArray]
  | cons x rest ih =>
    intro m hm
    unfold sanitizeStringArray
    by_cases h1 : sanitizeText x maxLen true = []
    · rw [if_pos h1]
      exact ih m hm
    · rw [if_neg h1]
      by_cases h2 : m ≤ 1
      · rw [if_pos h2]
        simpa using hm
      · rw [if_neg h2]
        have := ih (m - 1) (by omega)
        simp only [List.length_cons]
        omega

/-- Members of the sanitized string array are nonempty sanitized inputs. -/
theorem mem_sanitizeStringArray (maxLen : Nat) :
    ∀ (l : List Str) (maxItems : Nat) (s : Str),
      s ∈ sanitizeStringArray maxItems maxLen l →
      s ≠ [] ∧ ∃ x ∈ l, s = sanitizeText x maxLen true := by
  intro l
  induction l with
  | nil =>
    intro m s h
    exact absurd h (by simp [sanitizeStringArray])
  | cons x rest ih =>
    intro m s h
    unfold sanitizeStringArray at h
    by_cases h1 : sanitizeText x maxLen true = []
    · rw [if_pos h1] at h
      obtain ⟨hne, y, hy, hsy⟩ := ih m s h
      exact ⟨hne, y, List.mem_cons_of_mem x hy, hsy⟩
    · rw [if_neg h1] at h
      by_cases h2 : m ≤ 1
      · rw [if_pos h2] at h
        rcases List.mem_singleton.mp h with rfl
        exact ⟨h1, x, List.mem_cons_self x rest, rfl⟩
      · rw [if_neg h2] at h
        rcases List.mem_cons.mp h with rfl | hmem
        · exact ⟨h1, x, List.mem_cons_self x rest, rfl⟩
        · obtain ⟨hne, y, hy, hsy⟩ := ih (m - 1) s hmem
          exact ⟨hne, y, List.mem_cons_of_mem x hy, hsy⟩

/-- The sanitized string array fixes a short list of nonempty fixpoints. -/
theorem sanitizeStringArray_fix (maxLen : Nat) :
    ∀ (l : List Str) (maxItems : Nat), l.length ≤ maxItems →
      (∀ s ∈ l, sanitizeText s maxLen true = s ∧ s ≠ []) →
      sanitizeStringArray maxItems maxLen l = l := by
  intro l
  induction l with
  | nil =>
    intro m _ _
    rfl
  | cons x rest ih =>
    intro m hlen hfix
    have hx := hfix x (List.mem_cons_self x rest)
    unfold sanitizeStringArray
    rw [hx.1, if_neg hx.2]
    by_cases h2 : m ≤ 1
    · rw [if_pos h2]
      have : rest = [] := by
        have := hlen
        simp only [List.length_cons] at this
        cases rest with
        | nil => rfl
        | cons y t => simp at this; omega
      rw [this]
    · rw [if_neg h2]
      rw [ih (m - 1) (by simp only [List.length_cons] at hlen; omega)
        (fun s hs => hfix s (List.mem_cons_of_mem x hs))]

/-- Re-running the string-array sanitizer is the identity when no item was
truncated at the length cap on the first run. -/
theorem sanitizeStringArray_idem (maxItems maxLen : Nat) (hm : 1 ≤ maxItems)
    (l : List Str)
    (h : ∀ x ∈ l, (collapseSpaces (stripControlChars x)).length ≤ maxLen) :
    sanitizeStringArray maxItems maxLen (sanitizeStringArray maxItems maxLen l) =
      sanitizeStringArray maxItems maxLen l := by
  apply sanitizeStringArray_fix maxLen _ maxItems
    (sanitizeStringArray_length_le maxLen l maxItems hm)
  intro s hs
  obtain ⟨hne, x, hx, hsx⟩ := mem_sanitizeStringArray maxLen l maxItems s hs
  refine ⟨?_, hne⟩
  rw [hsx]
  exact sanitizeText_collapse_fix x maxLen (h x hx)

/-- Coercion recovers the stored form of a coerced key. -/
theorem coerceAttrKey_attrKeyStr (o : Option Attr) :
    coerceAttrKey (attrKeyStr o) = o := by
  cases o with
  | none => decide
  | some a => exact coerceAttrKey_attrName a

/-- Attribute maps agreeing at every key are equal. -/
theorem AttrMap.eq_of_get {α : Type} {m1 m2 : AttrMap α}
    (h : ∀ k, m1.get k = m2.get k) : m1 = m2 := by
  cases m1
  cases m2
  simp only [AttrMap.mk.injEq]
  exact ⟨h .strength, h .agility, h .intellect, h .willpower, h .attunement, h .heart⟩

/-- Unfolding of the normalized attribute at one key. -/
theorem normalizeCharacterDoc_attributes_get (src : RawDoc) (k : Attr) :
    (normalizeCharacterDoc src).attributes.get k =
      toIntClamp ((normalizeAttributes src.attributes).get k)
        (if attrKeyStr (coerceAttrKey src.primaryAttribute) ≠ [] ∧
            attrName k = attrKeyStr (coerceAttrKey src.primaryAttribute) then 1 else 0)
        (getAttributeEffectiveCap (clampLevelInt (src.level.getD 1)) (attrName k)
          (attrKeyStr (coerceAttrKey src.primaryAttribute))) := by
  show (AttrMap.mk6 _).get k = _
  rw [AttrMap.get_mk6]


/-- Projection of the normalized name. -/
theorem normalizeCharacterDoc_name (src : RawDoc) :
    (normalizeCharacterDoc src).name = sanitizeCharName src.name := rfl

/-- Projection of the normalized class key. -/
theorem normalizeCharacterDoc_classKey (src : RawDoc) :
    (normalizeCharacterDoc src).classKey = sanitizeText src.classKey 64 true := rfl

/-- Projection of the normalized primary attribute. -/
theorem normalizeCharacterDoc_primaryAttribute (src : RawDoc) :
    (normalizeCharacterDoc src).primaryAttribute =
      attrKeyStr (coerceAttrKey src.primaryAttribute) := rfl

/-- Projection of the normalized portrait path. -/
theorem normalizeCharacterDoc_portraitPath (src : RawDoc) :
    (normalizeCharacterDoc src).portraitPath = sanitizeStoragePath src.portraitPath := rfl

/-- Projection of the normalized level. -/
theorem normalizeCharacterDoc_level (src : RawDoc) :
    (normalizeCharacterDoc src).level = clampLevelInt (src.level.getD 1) := rfl

/-- Projection of the normalized class feature options. -/
theorem normalizeCharacterDoc_options (src : RawDoc) :
    (normalizeCharacterDoc src).selectedClassFeatureOptions =
      sanitizeStringArray 200 160 src.selectedClassFeatureOptions := rfl

/-- Projection of the normalized feats. -/
theorem normalizeCharacterDoc_feats (src : RawDoc) :
    (normalizeCharacterDoc src).selectedFeats =
      sanitizeStringArray 200 160 src.selectedFeats := rfl

/-- Projection of the normalized auto-ability names. -/
theorem normalizeCharacterDoc_autoNames (src : RawDoc) :
    (normalizeCharacterDoc src).autoAbilityNames =
      sanitizeStringArray 500 200 src.autoAbilityNames := rfl

/-- Projection of the normalized visited steps. -/
theorem normalizeCharacterDoc_visited (src : RawDoc) :
    (normalizeCharacterDoc src).visitedSteps =
      sanitizeStringArray 50 64 src.visitedSteps := rfl

/-- Projections of the raw view of a normalized document. -/
theorem normDocToRaw_fields (d : NormDoc) :
    (normDocToRaw d).name = d.name ∧ (normDocToRaw d).classKey = d.classKey ∧
    (normDocToRaw d).primaryAttribute = d.primaryAttribute ∧
    (normDocToRaw d).portraitPath = d.portraitPath ∧
    (normDocToRaw d).level = some d.level ∧
    (normDocToRaw d).selectedClassFeatureOptions = d.selectedClassFeatureOptions ∧
    (normDocToRaw d).selectedFeats = d.selectedFeats ∧
    (normDocToRaw d).autoAbilityNames = d.autoAbilityNames ∧
    (normDocToRaw d).visitedSteps = d.visitedSteps ∧
    (normDocToRaw d).attributes = AttrMap.mk6 (fun k => some (d.attributes.get k)) :=
  ⟨rfl, rfl, rfl, rfl, rfl, rfl, rfl, rfl, rfl, rfl⟩

/-- The primary-attribute minimum never exceeds the effective cap. -/
theorem primaryMin_le_effectiveCap (level : Int) (o : Option Attr) (k : Attr) :
    (if attrKeyStr o ≠ [] ∧ attrName k = attrKeyStr o then (1 : Int) else 0) ≤
      getAttributeEffectiveCap level (attrName k) (attrKeyStr o) := by
  by_cases hc : attrKeyStr o ≠ [] ∧ attrName k = attrKeyStr o
  · rw [if_pos hc]
    obtain ⟨hne, heq⟩ := hc
    cases o with
    | none => exact absurd rfl hne
    | some p =>
      have hkp : k = p := attrName_inj heq
      have hb := getAttributeFinalCap_bounds (clampLevelInt level)
      show (1 : Int) ≤ getAttributeEffectiveCap level (attrName k) (attrName p)
      rw [← hkp, getAttributeEffectiveCap_self]
      omega
  · rw [if_neg hc]
    exact getAttributeEffectiveCap_nonneg level (attrName k) (attrKeyStr o)

/-- Unfolding of `normalizeAttributes` at one key. -/
theorem normalizeAttributes_get (src : AttrMap (Option Int)) (k : Attr) :
    (normalizeAttributes src).get k = toInt (src.get k) 0 99 := by
  show (AttrMap.mk6 _).get k = _
  rw [AttrMap.get_mk6]

/-- Re-clamping a clamped value through the `[0, 99]` pass is the identity
when the clamp interval sits inside `[0, 99]`. -/
theorem toIntClamp_renorm (v0 lo cap : Int) (h1 : 0 ≤ lo) (h2 : lo ≤ cap)
    (h3 : cap ≤ 99) :
    toIntClamp (toIntClamp (toIntClamp v0 lo cap) 0 99) lo cap =
      toIntClamp v0 lo cap := by
  unfold toIntClamp
  omega

/-- C5 (amended): re-normalizing a normalized document reproduces the level,
primary attribute, attributes and portrait path unconditionally, and the
name, class key and string arrays byte for byte provided no string was
truncated at its length cap during the first normalization (the failure mode
of the counterexample: a truncation that leaves a trailing space which the
second pass trims away). -/
theorem c5_amended_normalize_idempotent (raw : RawDoc)
    (hname : (collapseSpaces (stripControlChars raw.name)).length ≤ 64)
    (hclass : (collapseSpaces (stripControlChars raw.classKey)).length ≤ 64)
    (hopts : ∀ x ∈ raw.selectedClassFeatureOptions,
      (collapseSpaces (stripControlChars x)).length ≤ 160)
    (hfeats : ∀ x ∈ raw.selectedFeats,
      (collapseSpaces (stripControlChars x)).length ≤ 160)
    (hauto : ∀ x ∈ raw.autoAbilityNames,
      (collapseSpaces (stripControlChars x)).length ≤ 200)
    (hvisited : ∀ x ∈ raw.visitedSteps,
      (collapseSpaces (stripControlChars x)).length ≤ 64) :
    (normalizeCharacterDoc (normDocToRaw (normalizeCharacterDoc raw))).name =
        (normalizeCharacterDoc raw).name ∧
    (normalizeCharacterDoc (normDocToRaw (normalizeCharacterDoc raw))).classKey =
        (normalizeCharacterDoc raw).classKey ∧
    (normalizeCharacterDoc (normDocToRaw (normalizeCharacterDoc raw))).primaryAttribute =
        (normalizeCharacterDoc raw).primaryAttribute ∧
    (normalizeCharacterDoc (normDocToRaw (normalizeCharacterDoc raw))).portraitPath =
        (normalizeCharacterDoc raw).portraitPath ∧
    (normalizeCharacterDoc (normDocToRaw (normalizeCharacterDoc raw))).level =
        (normalizeCharacterDoc raw).level ∧
    (normalizeCharacterDoc (normDocToRaw (normalizeCharacterDoc raw))).attributes =
        (normalizeCharacterDoc raw).attributes ∧
    (normalizeCharacterDoc (normDocToRaw (normalizeCharacterDoc raw))).selectedClassFeatureOptions =
        (normalizeCharacterDoc raw).selectedClassFeatureOptions ∧
    (normalizeCharacterDoc (normDocToRaw (normalizeCharacterDoc raw))).selectedFeats =
        (normalizeCharacterDoc raw).selectedFeats ∧
    (normalizeCharacterDoc (normDocToRaw (normalizeCharacterDoc raw))).autoAbilityNames =
        (normalizeCharacterDoc raw).autoAbilityNames ∧
    (normalizeCharacterDoc (normDocToRaw (normalizeCharacterDoc raw))).visitedSteps =
        (normalizeCharacterDoc raw).visitedSteps := by
  obtain ⟨hrn, hrc, hrp, hrpp, hrl, hro, hrf, hra, hrv, hrat⟩ :=
    normDocToRaw_fields (normalizeCharacterDoc raw)
  refine ⟨?_, ?_, ?_, ?_, ?_, ?_, ?_, ?_, ?_, ?_⟩
  · rw [normalizeCharacterDoc_name, hrn, normalizeCharacterDoc_name]
    unfold sanitizeCharName
    exact sanitizeText_collapse_fix raw.name 64 hname
  · rw [normalizeCharacterDoc_classKey, hrc, normalizeCharacterDoc_classKey]
    exact sanitizeText_collapse_fix raw.classKey 64 hclass
  · rw [normalizeCharacterDoc_primaryAttribute, hrp,
      normalizeCharacterDoc_primaryAttribute, coerceAttrKey_attrKeyStr]
  · rw [normalizeCharacterDoc_portraitPath, hrpp, normalizeCharacterDoc_portraitPath]
    exact sanitizeStoragePath_idem raw.portraitPath
  · rw [normalizeCharacterDoc_level, hrl, normalizeCharacterDoc_level]
    simp only [Option.getD_some]
    exact clampLevelInt_idem _
  · apply AttrMap.eq_of_get
    intro k
    rw [normalizeCharacterDoc_attributes_get, hrp, hrl, hrat,
      normalizeCharacterDoc_primaryAttribute, coerceAttrKey_attrKeyStr]
    simp only [Option.getD_some]
    rw [normalizeCharacterDoc_level, clampLevelInt_idem, normalizeAttributes_get,
      AttrMap.get_mk6]
    simp only [toInt]
    rw [normalizeCharacterDoc_attributes_get raw k]
    apply toIntClamp_renorm
    · split <;> omega
    · exact primaryMin_le_effectiveCap _ (coerceAttrKey raw.primaryAttribute) k
    · refine le_trans (getAttributeEffectiveCap_le_finalCap _ _ _) ?_
      have := getAttributeFinalCap_bounds (clampLevelInt (raw.level.getD 1))
      omega
  · rw [normalizeCharacterDoc_options, hro, normalizeCharacterDoc_options]
    exact sanitizeStringArray_idem 200 160 (by omega) _ hopts
  · rw [normalizeCharacterDoc_feats, hrf, normalizeCharacterDoc_feats]
    exact sanitizeStringArray_idem 200 160 (by omega) _ hfeats
  · rw [normalizeCharacterDoc_autoNames, hra, normalizeCharacterDoc_autoNames]
    exact sanitizeStringArray_idem 500 200 (by omega) _ hauto
  · rw [normalizeCharacterDoc_visited, hrv, normalizeCharacterDoc_visited]
    exact sanitizeStringArray_idem 50 64 (by omega) _ hvisited

/-- Concrete well-formed input used to witness the amended idempotence. -/
def c5WitnessRaw : RawDoc :=
  { schemaVersion := some 3, ownerUid := js "uid1", name := js "Alice",
    portraitPath := js "portraits/u1/c1/portrait",
    level := some 2, classKey := js "mage", primaryAttribute := js "agility",
    attributes := ⟨some 1, some 4, some 2, some 0, some 3, some 1⟩,
    selectedClassFeatureOptions := [js "mage|L1|School::Fire"],
    selectedFeats := [js "Zap"], autoAbilityNames := [js "Class Feature - Vision"],
    visitedSteps := [js "class"], sheetAbilities := none }

/-- Witness for the amended C5 at a concrete untruncated document. -/
theorem c5_amended_normalize_idempotent_witness :
    (normalizeCharacterDoc (normDocToRaw (normalizeCharacterDoc c5WitnessRaw))).name =
        (normalizeCharacterDoc c5WitnessRaw).name ∧
    (normalizeCharacterDoc (normDocToRaw (normalizeCharacterDoc c5WitnessRaw))).classKey =
        (normalizeCharacterDoc c5WitnessRaw).classKey ∧
    (normalizeCharacterDoc (normDocToRaw (normalizeCharacterDoc c5WitnessRaw))).primaryAttribute =
        (normalizeCharacterDoc c5WitnessRaw).primaryAttribute ∧
    (normalizeCharacterDoc (normDocToRaw (normalizeCharacterDoc c5WitnessRaw))).portraitPath =
        (normalizeCharacterDoc c5WitnessRaw).portraitPath ∧
    (normalizeCharacterDoc (normDocToRaw (normalizeCharacterDoc c5WitnessRaw))).level =
        (normalizeCharacterDoc c5WitnessRaw).level ∧
    (normalizeCharacterDoc (normDocToRaw (normalizeCharacterDoc c5WitnessRaw))).attributes =
        (normalizeCharacterDoc c5WitnessRaw).attributes ∧
    (normalizeCharacterDoc (normDocToRaw (normalizeCharacterDoc c5WitnessRaw))).selectedClassFeatureOptions =
        (normalizeCharacterDoc c5WitnessRaw).selectedClassFeatureOptions ∧
    (normalizeCharacterDoc (normDocToRaw (normalizeCharacterDoc c5WitnessRaw))).selectedFeats =
        (normalizeCharacterDoc c5WitnessRaw).selectedFeats ∧
    (normalizeCharacterDoc (normDocToRaw (normalizeCharacterDoc c5WitnessRaw))).autoAbilityNames =
        (normalizeCharacterDoc c5WitnessRaw).autoAbilityNames ∧
    (normalizeCharacterDoc (normDocToRaw (normalizeCharacterDoc c5WitnessRaw))).visitedSteps =
        (normalizeCharacterDoc c5WitnessRaw).visitedSteps :=
  c5_amended_normalize_idempotent c5WitnessRaw (by decide) (by decide)
    (by decide) (by decide) (by decide) (by decide)

/-- The `ATTR_KEYS` constant as stored strings. -/
def ATTR_KEYS : List Str :=
  [js "strength", js "agility", js "intellect", js "willpower",
   js "attunement", js "heart"]

/-- A feat row of the exported game data (builder-class.js reads `name`,
`classKey`, `minLevel`, `description`). -/
structure Feat where
  name : Str
  classKey : Str
  minLevel : Int
  description : Str
deriving Repr, DecidableEq

/-- One option of a choose-N class-feature group. -/
structure OptionItem where
  name : Str
  description : Str
deriving Repr, DecidableEq

/-- A class-feature row: either a fixed `feature` or an `optionGroup`. -/
structure ClassFeature where
  type : Str
  name : Str
  classKey : Str
  level : Int
  chooseCount : Int
  options : List OptionItem
  description : Str
deriving Repr, DecidableEq

/-- A class row of the exported game data. -/
structure GameClass where
  classKey : Str
  name : Str
  primaryAttributeA : Str
  primaryAttributeB : Str
  hpProgression : Str
  combatTechniqueSkill : Str
deriving Repr, DecidableEq

/-- The loaded `game-x-data.json` payload: classes, per-class feature lists
(an object keyed by class key, modelled as a function), and feats. -/
structure GameData where
  classes : List GameClass
  classFeatures : Str → List ClassFeature
  feats : List Feat

/-- The in-memory selection state of the class step page. -/
structure ClassState where
  selectedClassKey : Str
  selectedLevel : Int
  selectedPrimary : Str
  selectedFeatureOptionKeys : List Str
  selectedFeatNames : List Str
deriving Repr

/-- `safeStr` (builder-class.js): `sanitizeText` with the given cap and the
default collapse = false. -/
def safeStr (v : Str) (maxLen : Nat) : Str := sanitizeText v maxLen false

/-- `buildGroupId` (builder-class.js). -/
def buildGroupId (g : ClassFeature) : Str :=
  safeStr g.classKey 64 ++ js "|L" ++ js (toString g.level) ++ js "|" ++
    safeStr g.name 96

/-- `buildOptionKey` (builder-class.js). -/
def buildOptionKey (g : ClassFeature) (o : OptionItem) : Str :=
  buildGroupId g ++ js "::" ++ safeStr o.name 120

/-- `getFeatSlots` (builder-class.js): one slot per even level. -/
def getFeatSlots (level : Int) : Int :=
  clampLevelInt level / 2

/-- `computeVisibleClassFeatures` (builder-class.js). -/
def computeVisibleClassFeatures (gd : GameData) (classKey : Str) (level : Int) :
    List ClassFeature :=
  (gd.classFeatures classKey).filter (fun f => f.level ≤ clampLevelInt level)

/-- `computeVisibleFeats` (builder-class.js). -/
def computeVisibleFeats (gd : GameData) (classKey : Str) (level : Int) : List Feat :=
  (gd.feats.filter (fun f => f.classKey = classKey)).filter
    (fun f => f.minLevel ≤ clampLevelInt level)

/-- Deduplication with the already-seen elements tracked in `seen`. -/
def jsDedupAux (seen : List Str) : List Str → List Str
  | [] => []
  | x :: rest =>
    if x ∈ seen then jsDedupAux seen rest
    else x :: jsDedupAux (x :: seen) rest

/-- JS `new Set(list)` keeps the first occurrence of each element; the model
of a `Set<string>` is its element list in insertion order. -/
def jsDedup (l : List Str) : List Str := jsDedupAux [] l

/-- `pruneSelectionsForLevel` (builder-class.js) as a pure function on the
page state: with a selected class, feats are filtered against the visible
trimmed nonempty feat names and truncated to the slot count, and option keys
are filtered against the visible option-group keys. -/
def pruneSelectionsForLevel (gd : GameData) (st : ClassState) : ClassState :=
  if st.selectedClassKey = [] then st
  else
    let visibleFeats := computeVisibleFeats gd st.selectedClassKey st.selectedLevel
    let allowed := (visibleFeats.map (fun f => trimJs f.name)).filter (fun n => n ≠ [])
    let feats1 := jsDedup (st.selectedFeatNames.filter (fun n => n ∈ allowed))
    let maxSlots := getFeatSlots st.selectedLevel
    let feats2 :=
      if (feats1.length : Int) > maxSlots then jsDedup (feats1.take maxSlots.toNat)
      else feats1
    let visible := computeVisibleClassFeatures gd st.selectedClassKey st.selectedLevel
    let allowedOptKeys := (visible.filter (fun f => f.type = js "optionGroup")).flatMap
      (fun g => g.options.map (fun o => buildOptionKey g o))
    let optKeys := jsDedup (st.selectedFeatureOptionKeys.filter
      (fun k => k ∈ allowedOptKeys))
    { st with selectedFeatNames := feats2, selectedFeatureOptionKeys := optKeys }

/-- Deduplication only keeps elements of the input. -/
theorem mem_jsDedupAux {x : Str} :
    ∀ (l seen : List Str), x ∈ jsDedupAux seen l → x ∈ l := by
  intro l
  induction l with
  | nil => intro seen h; exact absurd h (by simp [jsDedupAux])
  | cons y rest ih =>
    intro seen h
    unfold jsDedupAux at h
    by_cases hy : y ∈ seen
    · rw [if_pos hy] at h
      exact List.mem_cons_of_mem y (ih seen h)
    · rw [if_neg hy] at h
      rcases List.mem_cons.mp h with rfl | hmem
      · exact List.mem_cons_self x rest
      · exact List.mem_cons_of_mem y (ih (y :: seen) hmem)

/-- Deduplication keeps elements of the input. -/
theorem mem_jsDedup {x : Str} {l : List Str} (h : x ∈ jsDedup l) : x ∈ l :=
  mem_jsDedupAux l [] h

/-- Deduplication never lengthens the list. -/
theorem jsDedupAux_length_le :
    ∀ (l seen : List Str), (jsDedupAux seen l).length ≤ l.length := by
  intro l
  induction l with
  | nil => intro seen; simp [jsDedupAux]
  | cons y rest ih =>
    intro seen
    unfold jsDedupAux
    by_cases hy : y ∈ seen
    · rw [if_pos hy]
      exact le_trans (ih seen) (by simp)
    · rw [if_neg hy]
      simp only [List.length_cons]
      exact Nat.succ_le_succ (ih (y :: seen))

/-- Deduplication never lengthens the list. -/
theorem jsDedup_length_le (l : List Str) : (jsDedup l).length ≤ l.length :=
  jsDedupAux_length_le l []

/-- The feat-slot count is never negative. -/
theorem getFeatSlots_nonneg (level : Int) : 0 ≤ getFeatSlots level := by
  have := clampLevelInt_bounds level
  unfold getFeatSlots
  omega

/-- C6: after pruning with a selected class, every retained feat name is the
trimmed nonempty name of a feat visible for that class and level, every
retained option key belongs to a visible option group, the retained feat
count is at most the slot count, and the slot count is `floor(level / 2)`. -/
theorem c6_prune_selections_consistent (gd : GameData) (st : ClassState)
    (hclass : st.selectedClassKey ≠ [])
    (hL1 : 1 ≤ st.selectedLevel) (hL2 : st.selectedLevel ≤ 12) :
    (∀ n ∈ (pruneSelectionsForLevel gd st).selectedFeatNames,
      ∃ f ∈ computeVisibleFeats gd st.selectedClassKey st.selectedLevel,
        trimJs f.name = n ∧ n ≠ []) ∧
    (∀ k ∈ (pruneSelectionsForLevel gd st).selectedFeatureOptionKeys,
      ∃ g ∈ computeVisibleClassFeatures gd st.selectedClassKey st.selectedLevel,
        g.type = js "optionGroup" ∧ ∃ o ∈ g.options, buildOptionKey g o = k) ∧
    (((pruneSelectionsForLevel gd st).selectedFeatNames.length : Int) ≤
      getFeatSlots st.selectedLevel) ∧
    getFeatSlots st.selectedLevel = st.selectedLevel / 2 := by
  unfold pruneSelectionsForLevel
  rw [if_neg hclass]
  dsimp only
  set allowed := ((computeVisibleFeats gd st.selectedClassKey st.selectedLevel).map
    (fun f => trimJs f.name)).filter (fun n => n ≠ []) with hallowed
  set feats1 := jsDedup (st.selectedFeatNames.filter (fun n => n ∈ allowed)) with hfeats1
  have hf1 : ∀ n ∈ feats1, n ∈ allowed := by
    intro n hn
    have := mem_jsDedup hn
    exact decide_eq_true_eq.mp (List.mem_filter.mp this).2
  have hms0 := getFeatSlots_nonneg st.selectedLevel
  refine ⟨?_, ?_, ?_, ?_⟩
  · intro n hn
    have hna : n ∈ allowed := by
      by_cases hgt : (feats1.length : Int) > getFeatSlots st.selectedLevel
      · rw [if_pos hgt] at hn
        exact hf1 n (List.take_subset _ _ (mem_jsDedup hn))
      · rw [if_neg hgt] at hn
        exact hf1 n hn
    rw [hallowed] at hna
    have hne : n ≠ [] := by simpa using (List.mem_filter.mp hna).2
    obtain ⟨f, hf, hfn⟩ := List.mem_map.mp (List.mem_of_mem_filter hna)
    exact ⟨f, hf, hfn, hne⟩
  · intro k hk
    have hkf := mem_jsDedup hk
    have hka : k ∈ ((computeVisibleClassFeatures gd st.selectedClassKey
        st.selectedLevel).filter (fun f => f.type = js "optionGroup")).flatMap
        (fun g => g.options.map (fun o => buildOptionKey g o)) :=
      decide_eq_true_eq.mp (List.mem_filter.mp hkf).2
    obtain ⟨g, hg, hkg⟩ := List.mem_flatMap.mp hka
    obtain ⟨o, ho, hok⟩ := List.mem_map.mp hkg
    exact ⟨g, List.mem_of_mem_filter hg,
      decide_eq_true_eq.mp (List.mem_filter.mp hg).2, o, ho, hok⟩
  · by_cases hgt : (feats1.length : Int) > getFeatSlots st.selectedLevel
    · rw [if_pos hgt]
      have h1 := jsDedup_length_le (feats1.take (getFeatSlots st.selectedLevel).toNat)
      have h2 := List.length_take_le (getFeatSlots st.selectedLevel).toNat feats1
      have h3 : ((getFeatSlots st.selectedLevel).toNat : Int) =
          getFeatSlots st.selectedLevel := Int.toNat_of_nonneg hms0
      omega
    · rw [if_neg hgt]
      omega
  · show clampLevelInt st.selectedLevel / 2 = st.selectedLevel / 2
    rw [clampLevelInt_eq_self hL1 hL2]

/-- `mergeAbilities` (builder-class.js): drop existing entries whose trimmed
name is a previously auto-generated name, then append the new auto set (the
source also re-wraps each kept entry as a fresh name/text object, which is
the identity here). -/
def mergeAbilities (existingAbilities : List Ability) (oldAutoNames : List Str)
    (newAutoAbilities : List Ability) : List Ability :=
  (existingAbilities.filter (fun it => trimJs it.name ∉ oldAutoNames)) ++
    newAutoAbilities

/-- `buildAutoAbilities` (builder-class.js): fixed class features, selected
option-group entries, then selected feats, each as a prefixed name plus a
trimmed description.  Feat lookup uses the last visible feat with a matching
trimmed name, as a JS `Map` built from key/value pairs keeps the last entry
for a duplicated key. -/
def buildAutoAbilities (gd : GameData) (st : ClassState) : List Ability :=
  if st.selectedClassKey = [] then []
  else
    let L := clampLevelInt st.selectedLevel
    let visible := computeVisibleClassFeatures gd st.selectedClassKey L
    let fixed := visible.filterMap (fun f =>
      if f.type = js "feature" then
        if trimJs f.name = [] then none
        else some ⟨js "Class Feature — " ++ trimJs f.name, trimJs f.description⟩
      else none)
    let opts := (visible.filter (fun g => g.type = js "optionGroup")).flatMap
      (fun g => g.options.filterMap (fun o =>
        if buildOptionKey g o ∈ st.selectedFeatureOptionKeys then
          if trimJs o.name = [] then none
          else some ⟨js "Class Feature — " ++ trimJs o.name, trimJs o.description⟩
        else none))
    let visibleFeats := computeVisibleFeats gd st.selectedClassKey L
    let featAbilities := st.selectedFeatNames.filterMap (fun name =>
      match visibleFeats.reverse.find? (fun f => trimJs f.name = name) with
      | none => none
      | some feat => some ⟨js "Feat — " ++ name, trimJs feat.description⟩)
    fixed ++ opts ++ featAbilities

/-- Appending a trimmed tail to a clean nonempty head is trim-fixed. -/
theorem trimJs_append_fix {X n : Str} (hX : headNotWs X = true) (hXne : X ≠ [])
    (hn : n ≠ []) (hlast : lastNotWs n = true) : trimJs (X ++ n) = X ++ n := by
  apply trimJs_fix
  · rw [headNotWs_append_of_ne_nil n hXne]
    exact hX
  · unfold lastNotWs
    rw [List.reverse_append]
    rw [headNotWs_append_of_ne_nil _ (by simpa using hn)]
    exact hlast

/-- Every auto-generated ability name is trim-fixed (the generated names
start with a prefix letter and end with a trimmed nonempty fragment),
provided the selected feat set contains no empty name. -/
theorem buildAutoAbilities_names_trim_fixed (gd : GameData) (st : ClassState)
    (h0 : [] ∉ st.selectedFeatNames) :
    ∀ a ∈ buildAutoAbilities gd st, trimJs a.name = a.name := by
  intro a ha
  unfold buildAutoAbilities at ha
  by_cases hck : st.selectedClassKey = []
  · rw [if_pos hck] at ha
    exact absurd ha (List.not_mem_nil a)
  · rw [if_neg hck] at ha
    dsimp only at ha
    rcases List.mem_append.mp ha with h12 | h3
    · rcases List.mem_append.mp h12 with h1 | h2
      · obtain ⟨f, hf, hfa⟩ := List.mem_filterMap.mp h1
        by_cases ht : f.type = js "feature"
        · rw [if_pos ht] at hfa
          by_cases hn : trimJs f.name = []
          · rw [if_pos hn] at hfa
            exact absurd hfa (by simp)
          · rw [if_neg hn] at hfa
            have := Option.some.inj hfa
            rw [← this]
            exact trimJs_append_fix (by decide) (by decide) hn
              (lastNotWs_trimJs f.name)
        · rw [if_neg ht] at hfa
          exact absurd hfa (by simp)
      · obtain ⟨g, hg, hga⟩ := List.mem_flatMap.mp h2
        obtain ⟨o, ho, hoa⟩ := List.mem_filterMap.mp hga
        by_cases hk : buildOptionKey g o ∈ st.selectedFeatureOptionKeys
        · rw [if_pos hk] at hoa
          by_cases hn : trimJs o.name = []
          · rw [if_pos hn] at hoa
            exact absurd hoa (by simp)
          · rw [if_neg hn] at hoa
            have := Option.some.inj hoa
            rw [← this]
            exact trimJs_append_fix (by decide) (by decide) hn
              (lastNotWs_trimJs o.name)
        · rw [if_neg hk] at hoa
          exact absurd hoa (by simp)
    · obtain ⟨name, hname, hna⟩ := List.mem_filterMap.mp h3
      cases hfind : (computeVisibleFeats gd st.selectedClassKey
          (clampLevelInt st.selectedLevel)).reverse.find?
          (fun f => trimJs f.name = name) with
      | none =>
        rw [hfind] at hna
        exact absurd hna (by simp)
      | some feat =>
        rw [hfind] at hna
        have ha2 := Option.some.inj hna
        have hpred0 := List.find?_some hfind
        have hpred : trimJs feat.name = name := by simpa using hpred0
        have hnne : name ≠ [] := by
          intro hcon
          rw [hcon] at hname
          exact h0 hname
        rw [← ha2]
        refine trimJs_append_fix (by decide) (by decide) hnne ?_
        rw [← hpred]
        exact lastNotWs_trimJs feat.name

/-- C7: with S the auto-generated abilities of the current selection, merging
once, recording names(S) as the tracked auto-name list, and merging again
yields exactly the manual entries of A (those whose trimmed names are in
neither the old tracked list N nor names(S)) followed by S; in particular the
manual entries survive the re-merge exactly once each. -/
theorem c7_remerge_preserves_manual_abilities (gd : GameData) (st : ClassState)
    (A : List Ability) (N : List Str) (h0 : [] ∉ st.selectedFeatNames) :
    mergeAbilities (mergeAbilities A N (buildAutoAbilities gd st))
        ((buildAutoAbilities gd st).map (fun a => a.name)) (buildAutoAbilities gd st) =
      A.filter (fun it => trimJs it.name ∉ N ∧
          trimJs it.name ∉ (buildAutoAbilities gd st).map (fun a => a.name)) ++
        buildAutoAbilities gd st ∧
    (mergeAbilities (mergeAbilities A N (buildAutoAbilities gd st))
        ((buildAutoAbilities gd st).map (fun a => a.name))
        (buildAutoAbilities gd st)).filter
        (fun it => trimJs it.name ∉ N ∧
          trimJs it.name ∉ (buildAutoAbilities gd st).map (fun a => a.name)) =
      A.filter (fun it => trimJs it.name ∉ N ∧
          trimJs it.name ∉ (buildAutoAbilities gd st).map (fun a => a.name)) := by
  set S := buildAutoAbilities gd st with hS
  set namesS := S.map (fun a => a.name) with hnamesS
  have htf : ∀ s ∈ S, trimJs s.name = s.name := by
    intro s hs
    exact buildAutoAbilities_names_trim_fixed gd st h0 s hs
  have hmem : ∀ s ∈ S, trimJs s.name ∈ namesS := by
    intro s hs
    rw [htf s hs, hnamesS]
    exact List.mem_map_of_mem _ hs
  have hSfilter : S.filter (fun it => trimJs it.name ∉ namesS) = [] := by
    rw [List.filter_eq_nil_iff]
    intro s hs
    simp [hmem s hs]
  have hSfilter2 : S.filter (fun it => trimJs it.name ∉ N ∧
      trimJs it.name ∉ namesS) = [] := by
    rw [List.filter_eq_nil_iff]
    intro s hs
    simp [hmem s hs]
  have hmain : mergeAbilities (mergeAbilities A N S) namesS S =
      A.filter (fun it => trimJs it.name ∉ N ∧ trimJs it.name ∉ namesS) ++ S := by
    unfold mergeAbilities
    rw [List.filter_append, hSfilter, List.append_nil, List.filter_filter]
    congr 1
    apply List.filter_congr
    intro a ha
    rw [Bool.decide_and]
    rw [Bool.and_comm]
  refine ⟨hmain, ?_⟩
  rw [hmain, List.filter_append, hSfilter2, List.append_nil, List.filter_filter]
  apply List.filter_congr
  intro a ha
  rw [Bool.and_self]

/-- Concrete game data used by the class-step witnesses. -/
def gdWitness : GameData :=
  { classes := [{ classKey := js "mage", name := js "Mage",
                  primaryAttributeA := js "intellect",
                  primaryAttributeB := js "attunement",
                  hpProgression := js "medium",
                  combatTechniqueSkill := js "intellect" }],
    classFeatures := fun k =>
      if k = js "mage" then
        [{ type := js "feature", name := js "Arcana", classKey := js "mage",
           level := 1, chooseCount := 0, options := [], description := js "sense magic" },
         { type := js "optionGroup", name := js "School", classKey := js "mage",
           level := 1, chooseCount := 1,
           options := [{ name := js "Fire", description := js "burn" },
                       { name := js "Ice", description := js "freeze" }],
           description := js "choose a school" }]
      else [],
    feats := [{ name := js "Zap", classKey := js "mage", minLevel := 1,
                description := js "zap a foe" },
              { name := js "Boom", classKey := js "mage", minLevel := 4,
                description := js "big boom" }] }

/-- Concrete class-step selection state used by the witnesses. -/
def stWitness : ClassState :=
  { selectedClassKey := js "mage", selectedLevel := 2,
    selectedPrimary := js "intellect",
    selectedFeatureOptionKeys := [js "mage|L1|School::Fire", js "stale|L9|Gone::X"],
    selectedFeatNames := [js "Zap", js "Ghost"] }

/-- Witness for C6 at the concrete data: pruning keeps only visible names and
respects the slot count at level 2. -/
theorem c6_prune_selections_consistent_witness :
    (∀ n ∈ (pruneSelectionsForLevel gdWitness stWitness).selectedFeatNames,
      ∃ f ∈ computeVisibleFeats gdWitness stWitness.selectedClassKey
          stWitness.selectedLevel, trimJs f.name = n ∧ n ≠ []) ∧
    (∀ k ∈ (pruneSelectionsForLevel gdWitness stWitness).selectedFeatureOptionKeys,
      ∃ g ∈ computeVisibleClassFeatures gdWitness stWitness.selectedClassKey
          stWitness.selectedLevel,
        g.type = js "optionGroup" ∧ ∃ o ∈ g.options, buildOptionKey g o = k) ∧
    (((pruneSelectionsForLevel gdWitness stWitness).selectedFeatNames.length : Int) ≤
      getFeatSlots stWitness.selectedLevel) ∧
    getFeatSlots stWitness.selectedLevel = stWitness.selectedLevel / 2 :=
  c6_prune_selections_consistent gdWitness stWitness (by decide) (by decide) (by decide)

/-- Manual abilities list used by the C7 witness. -/
def abilitiesWitness : List Ability :=
  [⟨js "My Special Move", js "homebrew"⟩,
   ⟨js "Class Feature — Vision", js "stale auto entry"⟩]

/-- Witness for C7 at the concrete data. -/
theorem c7_remerge_preserves_manual_abilities_witness :
    mergeAbilities (mergeAbilities abilitiesWitness [js "Class Feature — Vision"]
        (buildAutoAbilities gdWitness stWitness))
        ((buildAutoAbilities gdWitness stWitness).map (fun a => a.name))
        (buildAutoAbilities gdWitness stWitness) =
      abilitiesWitness.filter (fun it => trimJs it.name ∉ [js "Class Feature — Vision"] ∧
          trimJs it.name ∉ (buildAutoAbilities gdWitness stWitness).map (fun a => a.name)) ++
        buildAutoAbilities gdWitness stWitness ∧
    (mergeAbilities (mergeAbilities abilitiesWitness [js "Class Feature — Vision"]
        (buildAutoAbilities gdWitness stWitness))
        ((buildAutoAbilities gdWitness stWitness).map (fun a => a.name))
        (buildAutoAbilities gdWitness stWitness)).filter
        (fun it => trimJs it.name ∉ [js "Class Feature — Vision"] ∧
          trimJs it.name ∉ (buildAutoAbilities gdWitness stWitness).map (fun a => a.name)) =
      abilitiesWitness.filter (fun it => trimJs it.name ∉ [js "Class Feature — Vision"] ∧
          trimJs it.name ∉ (buildAutoAbilities gdWitness stWitness).map (fun a => a.name)) :=
  c7_remerge_preserves_manual_abilities gdWitness stWitness abilitiesWitness
    [js "Class Feature — Vision"] (by decide)

/-- `getClassByKey` (builder-class.js): first class with the exact key. -/
def getClassByKey (gd : GameData) (classKey : Str) : Option GameClass :=
  gd.classes.find? (fun c => c.classKey = classKey)

/-- `classSelectableInfo` (builder-class.js), reduced to its `ok` flag: all
four required fields nonempty and a nonempty class-feature list. -/
def classSelectable (gd : GameData) (c : GameClass) : Bool :=
  c.primaryAttributeA ≠ [] && c.primaryAttributeB ≠ [] &&
  c.hpProgression ≠ [] && c.combatTechniqueSkill ≠ [] &&
  gd.classFeatures c.classKey ≠ []

/-- `getAllowedPrimaryAttributes` (builder-class.js): coerce the two primary
candidates, drop failures, and keep only real attribute keys. -/
def getAllowedPrimaryAttributes (c : GameClass) : List Str :=
  ([attrKeyStr (coerceAttrKey c.primaryAttributeA),
    attrKeyStr (coerceAttrKey c.primaryAttributeB)].filter
      (fun s => s ≠ [])).filter (fun s => s ∈ ATTR_KEYS)

/-- One iteration of the option-group check in `validateBeforeSave`: a group
with a zero choose count is skipped, otherwise exactly `chooseCount` of its
option keys must be selected. -/
def groupPickOk (st : ClassState) (g : ClassFeature) : Bool :=
  if g.chooseCount = 0 then true
  else (((g.options.map (fun o => buildOptionKey g o)).filter
      (fun k => k ∈ st.selectedFeatureOptionKeys)).length : Int) = g.chooseCount

/-- `validateBeforeSave` (builder-class.js), reduced to its `ok` flag (the
accompanying message is UI text). -/
def validateBeforeSave (gd : GameData) (st : ClassState) : Bool :=
  match getClassByKey gd st.selectedClassKey with
  | none => false
  | some cls =>
    if classSelectable gd cls = false then false
    else if st.selectedPrimary = [] ∨
        st.selectedPrimary ∉ getAllowedPrimaryAttributes cls then false
    else if ((computeVisibleClassFeatures gd st.selectedClassKey
        st.selectedLevel).filter (fun f => f.type = js "optionGroup")).all
        (groupPickOk st) = false then false
    else if (st.selectedFeatNames.length : Int) > getFeatSlots st.selectedLevel
      then false
    else true

/-- The dot-path patch written by a successful class-step save. -/
structure ClassStepPatch where
  level : Int
  classKey : Str
  primaryAttribute : Str
  selectedClassFeatureOptions : List Str
  selectedFeats : List Str
  autoAbilityNames : List Str
  abilities : List Ability
deriving Repr, DecidableEq

/-- `saveClassStep` (builder-class.js) as a pure transition: on a failed
validation nothing is written and `false` is returned; otherwise the patch
passed to `saveCharacterPatch` is produced together with `true` (the network
failure path of the `try` block is outside the model). -/
def saveClassStep (gd : GameData) (st : ClassState) (doc : NormDoc) :
    Option ClassStepPatch × Bool :=
  if validateBeforeSave gd st = false then (none, false)
  else
    let autoAbilities := buildAutoAbilities gd st
    let autoNames := autoAbilities.map (fun a => a.name)
    let oldAutoNames := doc.autoAbilityNames
    let existingAbilities := doc.sheetAbilities.getD []
    let mergedAbilities := mergeAbilities existingAbilities oldAutoNames autoAbilities
    (some { level := clampLevelInt st.selectedLevel,
            classKey := safeStr st.selectedClassKey 64,
            primaryAttribute := safeStr st.selectedPrimary 32,
            selectedClassFeatureOptions := st.selectedFeatureOptionKeys,
            selectedFeats := st.selectedFeatNames,
            autoAbilityNames := autoNames,
            abilities := mergedAbilities }, true)

/-- C9: when validation fails for any of its five reasons — no class found,
class not selectable, missing/disallowed primary attribute, a visible option
group whose pick count differs from its choose count, or more selected feats
than slots — `saveClassStep` writes nothing and returns `false`. -/
theorem c9_failed_validation_blocks_save (gd : GameData) (st : ClassState)
    (doc : NormDoc)
    (h : getClassByKey gd st.selectedClassKey = none ∨
      (∃ cls, getClassByKey gd st.selectedClassKey = some cls ∧
        classSelectable gd cls = false) ∨
      (∃ cls, getClassByKey gd st.selectedClassKey = some cls ∧
        (st.selectedPrimary = [] ∨
          st.selectedPrimary ∉ getAllowedPrimaryAttributes cls)) ∨
      (∃ g ∈ (computeVisibleClassFeatures gd st.selectedClassKey
          st.selectedLevel).filter (fun f => f.type = js "optionGroup"),
        g.chooseCount ≠ 0 ∧
        (((g.options.map (fun o => buildOptionKey g o)).filter
            (fun k => k ∈ st.selectedFeatureOptionKeys)).length : Int) ≠
          g.chooseCount) ∨
      ((st.selectedFeatNames.length : Int) > getFeatSlots st.selectedLevel)) :
    validateBeforeSave gd st = false ∧ saveClassStep gd st doc = (none, false) := by
  have hv : validateBeforeSave gd st = false := by
    unfold validateBeforeSave
    rcases h with h1 | ⟨cls, hcls, hsel⟩ | ⟨cls, hcls, hprim⟩ |
      ⟨g, hg, hcc, hpick⟩ | hfeat
    · rw [h1]
    · rw [hcls]
      dsimp only
      rw [if_pos hsel]
    · rw [hcls]
      dsimp only
      by_cases hs : classSelectable gd cls = false
      · rw [if_pos hs]
      · rw [if_neg hs, if_pos hprim]
    · have hall : ((computeVisibleClassFeatures gd st.selectedClassKey
          st.selectedLevel).filter (fun f => f.type = js "optionGroup")).all
          (groupPickOk st) = false := by
        cases hb : ((computeVisibleClassFeatures gd st.selectedClassKey
            st.selectedLevel).filter (fun f => f.type = js "optionGroup")).all
            (groupPickOk st) with
        | false => rfl
        | true =>
          exfalso
          have hgok := List.all_eq_true.mp hb g hg
          unfold groupPickOk at hgok
          rw [if_neg hcc] at hgok
          exact hpick (decide_eq_true_eq.mp hgok)
      cases hfind : getClassByKey gd st.selectedClassKey with
      | none => rfl
      | some cls2 =>
        dsimp only
        by_cases hs : classSelectable gd cls2 = false
        · rw [if_pos hs]
        · rw [if_neg hs]
          by_cases hp : st.selectedPrimary = [] ∨
              st.selectedPrimary ∉ getAllowedPrimaryAttributes cls2
          · rw [if_pos hp]
          · rw [if_neg hp, if_pos hall]
    · cases hfind : getClassByKey gd st.selectedClassKey with
      | none => rfl
      | some cls2 =>
        dsimp only
        by_cases hs : classSelectable gd cls2 = false
        · rw [if_pos hs]
        · rw [if_neg hs]
          by_cases hp : st.selectedPrimary = [] ∨
              st.selectedPrimary ∉ getAllowedPrimaryAttributes cls2
          · rw [if_pos hp]
          · rw [if_neg hp]
            by_cases hgall : ((computeVisibleClassFeatures gd st.selectedClassKey
                st.selectedLevel).filter (fun f => f.type = js "optionGroup")).all
                (groupPickOk st) = false
            · rw [if_pos hgall]
            · rw [if_neg hgall, if_pos hfeat]
  refine ⟨hv, ?_⟩
  unfold saveClassStep
  rw [if_pos hv]

/-- Game data with no classes, used in the C9 witness. -/
def gdEmpty : GameData :=
  { classes := [], classFeatures := fun _ => [], feats := [] }

/-- Selection state whose class key is not in the data. -/
def c9WitnessState : ClassState :=
  { selectedClassKey := js "mage", selectedLevel := 3, selectedPrimary := [],
    selectedFeatureOptionKeys := [], selectedFeatNames := [] }

/-- Witness for C9: with an unknown class key validation fails and the save
writes nothing and returns false. -/
theorem c9_failed_validation_blocks_save_witness :
    validateBeforeSave gdEmpty c9WitnessState = false ∧
    saveClassStep gdEmpty c9WitnessState (normalizeCharacterDoc c5WitnessRaw) =
      (none, false) :=
  c9_failed_validation_blocks_save gdEmpty c9WitnessState
    (normalizeCharacterDoc c5WitnessRaw) (Or.inl (by decide))

/-- One tier of `HP_MODELS` (character-schema.js): level-1 base plus
per-level increment. -/
structure HpModel where
  base : Int
  per : Int
deriving Repr, DecidableEq

/-- `HP_MODELS.low`. -/
def HP_MODELS_low : HpModel := ⟨40, 8⟩

/-- `HP_MODELS.medium`. -/
def HP_MODELS_medium : HpModel := ⟨50, 10⟩

/-- `HP_MODELS.high`. -/
def HP_MODELS_high : HpModel := ⟨60, 12⟩

/-- `normalizeHpProgressionLabel` (character-schema.js). -/
def normalizeHpProgressionLabel (v : Str) : Str :=
  let s := (sanitizeText v 16 true).map Char.toLower
  if s = js "low" then js "low"
  else if s = js "medium" then js "medium"
  else if s = js "high" then js "high"
  else []

/-- `getClassHpModel` (character-schema.js), given the loaded class list (the
fetch/caching of `classes.json` is plumbing outside the model; a load failure
also yields the empty label, which defaults to the low tier). -/
def getClassHpModel (classes : List GameClass) (classKey : Str) : HpModel :=
  let key := sanitizeText classKey 64 true
  let prog :=
    match classes.find? (fun c => trimJs c.classKey = key) with
    | some found => normalizeHpProgressionLabel found.hpProgression
    | none => []
  let tier := if prog = [] then js "low" else prog
  if tier = js "low" then HP_MODELS_low
  else if tier = js "medium" then HP_MODELS_medium
  else if tier = js "high" then HP_MODELS_high
  else HP_MODELS_low

/-- `computeMaxHP` (character-schema.js): base + per-level increment plus a
strength scaling term; `Math.round` on an integer sum is the identity. -/
def computeMaxHP (classes : List GameClass) (level : Option Int) (classKey : Str)
    (attributes : AttrMap (Option Int)) : Int :=
  let L := clampLevelInt (level.getD 1)
  let attrs := normalizeAttributes attributes
  let hpModel := getClassHpModel classes classKey
  hpModel.base + hpModel.per * (L - 1) + attrs.strength * (L + 2)

/-- C8: for a class whose progression label normalizes to `medium`,
`computeMaxHP` at a level in [1,12] is `50 + 10*(L-1) + strength*(L+2)` on
the normalized strength. -/
theorem c8_medium_hp_formula (classes : List GameClass) (classKey : Str)
    (cls : GameClass) (attrs : AttrMap (Option Int)) (L : Int)
    (h1 : 1 ≤ L) (h2 : L ≤ 12)
    (hfind : classes.find?
      (fun c => trimJs c.classKey = sanitizeText classKey 64 true) = some cls)
    (hmed : normalizeHpProgressionLabel cls.hpProgression = js "medium") :
    computeMaxHP classes (some L) classKey attrs =
      50 + 10 * (L - 1) + (normalizeAttributes attrs).strength * (L + 2) := by
  dsimp only [computeMaxHP, getClassHpModel]
  rw [hfind]
  dsimp only
  rw [hmed, Option.getD_some, clampLevelInt_eq_self h1 h2]
  rw [show (if js "medium" = ([] : Str) then js "low" else js "medium") =
    js "medium" by decide]
  rw [if_neg (show ¬ (js "medium" = js "low") by decide)]
  rw [if_pos (show js "medium" = js "medium" from rfl)]
  rfl

/-- The class row used by the C8 witness. -/
def mageWitnessClass : GameClass :=
  { classKey := js "mage", name := js "Mage",
    primaryAttributeA := js "intellect", primaryAttributeB := js "attunement",
    hpProgression := js "Medium", combatTechniqueSkill := js "intellect" }

/-- The attribute map used by the C8 witness (strength 5). -/
def hpWitnessAttrs : AttrMap (Option Int) :=
  ⟨some 5, some 2, some 1, some 0, some 3, some 1⟩

/-- Witness for C8: level 3, strength 5, medium progression gives 95. -/
theorem c8_medium_hp_formula_witness :
    computeMaxHP [mageWitnessClass] (some 3) (js "mage") hpWitnessAttrs = 95 :=
  (c8_medium_hp_formula [mageWitnessClass] (js "mage") mageWitnessClass
    hpWitnessAttrs 3 (by decide) (by decide) (by decide) (by decide)).trans
    (by decide)

/-- Values that can sit in an update patch.  `vint n` stands for every
JavaScript value whose `parseInt(String(v))` is `n` with `String(v)` its
decimal form; `vnull` for `null`/`undefined`; container constructors carry
the shapes the sanitizers inspect (non-integral numbers and exotic coercions
are outside the model). -/
inductive JVal where
  | vstr : Str → JVal
  | vint : Int → JVal
  | vattrs : AttrMap (Option Int) → JVal
  | vattrsN : AttrMap Int → JVal
  | vlist : List Str → JVal
  | vabilities : List Ability → JVal
  | vnull : JVal
  | vtime : JVal
deriving DecidableEq, Repr

/-- JS `Number.parseInt` on a string: optional leading whitespace and sign,
then a maximal run of decimal digits (the `0x` hex prefix is not modelled). -/
def jsParseInt (s : Str) : Option Int :=
  let core := fun (u : Str) =>
    let ds := u.takeWhile (fun c => 48 ≤ c.toNat && c.toNat ≤ 57)
    if ds = [] then none
    else some (ds.foldl (fun acc c => acc * 10 + ((c.toNat : Int) - 48)) 0)
  match s.dropWhile isJsWs with
  | '-' :: rest => (core rest).map (fun n => -n)
  | '+' :: rest => core rest
  | t => core t

/-- JS `String(v)` on a patch value. -/
def jvalStringOf : JVal → Str
  | .vnull => js "null"
  | .vstr s => s
  | .vint n => js (toString n)
  | .vattrs _ => js "[object Object]"
  | .vattrsN _ => js "[object Object]"
  | .vlist l => List.intercalate (js ",") l
  | .vabilities l => List.intercalate (js ",") (List.replicate l.length (js "[object Object]"))
  | .vtime => js "[object Object]"

/-- JS `String(v ?? "")` as fed to the text sanitizers. -/
def jvalToText : JVal → Str
  | .vnull => []
  | v => jvalStringOf v

/-- JS `String(v || "")` as used by `coerceAttrKey` (falsy 0 also blanks). -/
def jvalToTextFalsy : JVal → Str
  | .vint 0 => []
  | .vnull => []
  | v => jvalStringOf v

/-- `toInt` (character-schema.js) on a patch value. -/
def toIntJ (v : JVal) (lo hi : Int) : Int :=
  match jsParseInt (jvalStringOf v) with
  | none => lo
  | some n => toIntClamp n lo hi

/-- The attribute-object view of a patch value (non-objects read as empty). -/
def jvalToAttrObj : JVal → AttrMap (Option Int)
  | .vattrs m => m
  | _ => ⟨none, none, none, none, none, none⟩

/-- The string-array view of a patch value. -/
def jvalToStrList : JVal → List Str
  | .vlist l => l
  | _ => []

/-- The abilities-array view of a patch value. -/
def jvalToAbilities : JVal → List Ability
  | .vabilities l => l
  | _ => []

/-- The key filter of `sanitizeUpdatePatch` (character-schema.js): only the
root `schemaVersion` plus `builder.*` dot paths survive. -/
def allowedPatchKey (k : Str) : Bool :=
  k = js "schemaVersion" || (js "builder.").isPrefixOf k

/-- The per-key value normalizations of `sanitizeUpdatePatch`. -/
def sanitizeValueForKey (k : Str) (v : JVal) : JVal :=
  if k = js "schemaVersion" then .vint (toIntJ v 0 9999)
  else if k = js "builder.name" then .vstr (sanitizeCharName (jvalToText v))
  else if k = js "builder.portraitPath" then
    .vstr (sanitizeStoragePath (jvalToText v))
  else if k = js "builder.level" then .vint (toIntJ v 1 12)
  else if k = js "builder.classKey" then
    .vstr (sanitizeText (jvalToText v) 64 true)
  else if k = js "builder.primaryAttribute" then
    .vstr (attrKeyStr (coerceAttrKey (jvalToTextFalsy v)))
  else if k = js "builder.attributes" then
    .vattrsN (normalizeAttributes (jvalToAttrObj v))
  else if k = js "builder.selectedClassFeatureOptions" ∨
      k = js "builder.selectedFeats" ∨ k = js "builder.autoAbilityNames" ∨
      k = js "builder.visitedSteps" then
    .vlist (sanitizeStringArray 500 200 (jvalToStrList v))
  else if k = js "builder.sheet.repeatables.abilities" then
    .vabilities (sanitizeRepeatableAbilities 200 (jvalToAbilities v))
  else v

/-- `sanitizeUpdatePatch` (character-schema.js): delete every key other than
`schemaVersion` and `builder.*`, then normalize the known keys in place. -/
def sanitizeUpdatePatch (patch : List (Str × JVal)) : List (Str × JVal) :=
  (patch.filter (fun kv => allowedPatchKey kv.1)).map
    (fun kv => (kv.1, sanitizeValueForKey kv.1 kv.2))

/-- The `serverTimestamp()` sentinel. -/
def serverTimestampV : JVal := .vtime

/-- `saveCharacterPatch` (builder-common.js): the cleaned patch plus an
`updatedAt` server timestamp is what reaches `updateDoc`. -/
def saveCharacterPatch (patch : List (Str × JVal)) : List (Str × JVal) :=
  sanitizeUpdatePatch patch ++ [(js "updatedAt", serverTimestampV)]

/-- C10: every key surviving `sanitizeUpdatePatch` is `schemaVersion` or a
`builder.` dot path, and consequently every key written through
`saveCharacterPatch` is one of those or `updatedAt` — all other document
fields are untouched. -/
theorem c10_patch_gate_key_frame (patch : List (Str × JVal)) :
    (∀ kv ∈ sanitizeUpdatePatch patch,
      kv.1 = js "schemaVersion" ∨ (js "builder.").isPrefixOf kv.1 = true) ∧
    (∀ kv ∈ saveCharacterPatch patch,
      kv.1 = js "schemaVersion" ∨ (js "builder.").isPrefixOf kv.1 = true ∨
        kv.1 = js "updatedAt") := by
  have hclean : ∀ kv ∈ sanitizeUpdatePatch patch,
      kv.1 = js "schemaVersion" ∨ (js "builder.").isPrefixOf kv.1 = true := by
    intro kv hkv
    obtain ⟨kv0, hkv0, hmap⟩ := List.mem_map.mp hkv
    have hall : allowedPatchKey kv0.1 = true := (List.mem_filter.mp hkv0).2
    have hfst : kv.1 = kv0.1 := by rw [← hmap]
    unfold allowedPatchKey at hall
    rcases Bool.or_eq_true_iff.mp hall with h | h
    · left
      rw [hfst]
      exact decide_eq_true_eq.mp h
    · right
      rw [hfst]
      exact h
  refine ⟨hclean, ?_⟩
  intro kv hkv
  rcases List.mem_append.mp hkv with h | h
  · rcases hclean kv h with h1 | h1
    · exact Or.inl h1
    · exact Or.inr (Or.inl h1)
  · right
    right
    rw [show kv = (js "updatedAt", serverTimestampV) from List.mem_singleton.mp h]

/-- A patch mixing a disallowed root key with builder keys. -/
def c10WitnessPatch : List (Str × JVal) :=
  [(js "ownerUid", .vstr (js "someone-else")),
   (js "builder.name", .vstr (js "Bob")),
   (js "schemaVersion", .vint 3)]

/-- Witness for C10: the sanitized concrete patch keeps `builder.name`, and
its keys plus the appended `updatedAt` all satisfy the frame property. -/
theorem c10_patch_gate_key_frame_witness :
    ((js "builder.name", JVal.vstr (js "Bob")) ∈ sanitizeUpdatePatch c10WitnessPatch) ∧
    ((js "builder.name", JVal.vstr (js "Bob")).1 = js "schemaVersion" ∨
      (js "builder.").isPrefixOf (js "builder.name", JVal.vstr (js "Bob")).1 = true) ∧
    ((js "updatedAt", serverTimestampV).1 = js "schemaVersion" ∨
      (js "builder.").isPrefixOf (js "updatedAt", serverTimestampV).1 = true ∨
      (js "updatedAt", serverTimestampV).1 = js "updatedAt") :=
  ⟨by decide,
   (c10_patch_gate_key_frame c10WitnessPatch).1 _ (by decide),
   (c10_patch_gate_key_frame c10WitnessPatch).2 _ (by decide)⟩
